import Mathlib

/-!
The request capture handler of httplog.

A shallow embedding of `main.go` (the functions `createLogDir`, `handler` and the
port selection of `main`) together with the parts of the Go standard library they
call, and theorems about them.

Conventions of the embedding.

* A Go `string` / `[]byte` is a `List Char`: the sequence of its Unicode code points
  (texts are taken to be valid UTF-8).  Where Go works on the bytes (percent
  escapes of a query, the size limit of a form) the text is encoded to bytes and
  read back with `utf8.DecodeRune`.
* A Go `map[string]T` is an association list with one entry per key; `m[k] = v`
  is `GoMap.set`.  The order in which `range` visits a map is not fixed by Go; it
  is supplied by the environment (`Env.range`), constrained to be a permutation
  of the entries.
* The outcome of every call that leaves the process (clock, file system errors,
  the JSON encoder, the media type parser) is read from an environment `Env`; a
  request body is a stream (`Reader`) that may report a read error.
* The file system is a finite map from paths to directories and files.  `os.Stat`
  has three outcomes (found, a not-exist error, another error); the second one
  alone ends the loop of `createLogDir`.
* `createLogDir` is an unbounded `for` loop; it is embedded with a fuel argument
  (`none` = the loop has not finished within the fuel).
-/

namespace Httplog

/-- Go strings as sequences of code points. -/
abbrev Str := List Char

/-- The double-quote character. -/
def dq : Char := Char.ofNat 34

/-- The backslash character. -/
def bs : Char := Char.ofNat 92

/-! ## Go maps -/

/-- Association list standing for a Go `map[string]α`. -/
abbrev GoMap (α : Type) := List (Str × α)

/-- Map read `m[k]` (with presence flag). -/
def GoMap.get? {α : Type} (m : GoMap α) (k : Str) : Option α :=
  match m with
  | [] => none
  | (k', v) :: rest => if k' = k then some v else GoMap.get? rest k

/-- Map assignment `m[k] = v`: overwrites the entry of `k` when there is one. -/
def GoMap.set {α : Type} (m : GoMap α) (k : Str) (v : α) : GoMap α :=
  match m with
  | [] => [(k, v)]
  | (k', v') :: rest => if k' = k then (k, v) :: rest else (k', v') :: GoMap.set rest k v

/-! ## Number and time formatting -/

/-- Decimal digits of a non-negative integer, left-padded with zeros to a minimum
width: what `fmt` prints for `%0<width>d` and what `time.appendInt` appends. -/
def zeroPad (width n : Nat) : Str :=
  List.replicate (width - (Nat.toDigits 10 n).length) '0' ++ Nat.toDigits 10 n

/-- The wall-clock time `time.Now()` returns, as civil date and time of day:
a date of the years 0 to 9999 with every field in its calendar range. -/
structure Time where
  year : Nat
  month : Nat
  day : Nat
  hour : Nat
  minute : Nat
  second : Nat
  inRange : year ≤ 9999 ∧ 1 ≤ month ∧ month ≤ 12 ∧ 1 ≤ day ∧ day ≤ 31 ∧
    hour ≤ 23 ∧ minute ≤ 59 ∧ second ≤ 59

/-- The layout `time.Format("20060102-150405")`. -/
def Time.Format (t : Time) : Str :=
  zeroPad 4 t.year ++ zeroPad 2 t.month ++ zeroPad 2 t.day ++ '-' ::
    (zeroPad 2 t.hour ++ zeroPad 2 t.minute ++ zeroPad 2 t.second)

/-! ## Paths (`path/filepath`, Unix) -/

/-- Split at every occurrence of a separator character (the pieces between
separators, empty ones included), as `strings.Split` does. -/
def splitChar (sep : Char) : Str → List Str
  | [] => [[]]
  | c :: cs =>
    if c = sep then [] :: splitChar sep cs
    else
      match splitChar sep cs with
      | [] => [[c]]
      | x :: xs => (c :: x) :: xs

/-- One round of the loop of `filepath.Clean` on the next path component.  `out`
is the output so far as a stack of components (most recent first). -/
def cleanStep (rooted : Bool) (out : List Str) (c : Str) : List Str :=
  if c = [] ∨ c = ['.'] then out
  else if c = ['.', '.'] then
    match out with
    | top :: rest =>
      if top = ['.', '.'] then (if rooted then out else c :: out) else rest
    | [] => if rooted then out else [c]
  else c :: out

/-- Function `filepath.Clean`. -/
def Clean (path : Str) : Str :=
  if path = [] then ['.']
  else
    let rooted : Bool := path.head? = some '/'
    let out := (splitChar '/' path).foldl (cleanStep rooted) []
    if rooted then '/' :: List.intercalate ['/'] out.reverse
    else if out = [] then ['.']
    else List.intercalate ['/'] out.reverse

/-- Function `filepath.Join` with two elements. -/
def Join (a b : Str) : Str :=
  if a ≠ [] then Clean (a ++ '/' :: b)
  else if b ≠ [] then Clean b
  else []

/-- The part of a path after its last `/`. -/
def lastSegment (p : Str) : Str :=
  (p.reverse.takeWhile (fun c => c ≠ '/')).reverse

/-! ## Strings (`strings`, `unicode`) -/

/-- Function `strings.ReplaceAll` for a pattern of one character. -/
def ReplaceAll (s : Str) (old : Char) (new : Str) : Str :=
  match s with
  | [] => []
  | c :: cs => if c = old then new ++ ReplaceAll cs old new else c :: ReplaceAll cs old new

/-- Predicate `unicode.IsSpace`. -/
def isSpace (c : Char) : Bool :=
  let n := c.toNat
  decide ((9 ≤ n ∧ n ≤ 13) ∨ n = 32 ∨ n = 0x85 ∨ n = 0xA0 ∨ n = 0x1680 ∨
    (0x2000 ≤ n ∧ n ≤ 0x200a) ∨ n = 0x2028 ∨ n = 0x2029 ∨ n = 0x202f ∨ n = 0x205f ∨
    n = 0x3000)

/-- Function `strings.TrimSpace`. -/
def TrimSpace (s : Str) : Str :=
  ((s.dropWhile isSpace).reverse.dropWhile isSpace).reverse

/-! ## Query strings (`net/url`) -/

/-- Type `url.Values`. -/
abbrev Values := GoMap (List Str)

/-- The UTF-8 encoding of a code point. -/
def utf8Encode (c : Char) : List Nat :=
  if c.toNat < 0x80 then [c.toNat]
  else if c.toNat < 0x800 then [0xC0 + c.toNat / 64, 0x80 + c.toNat % 64]
  else if c.toNat < 0x10000 then
    [0xE0 + c.toNat / 4096, 0x80 + c.toNat / 64 % 64, 0x80 + c.toNat % 64]
  else
    [0xF0 + c.toNat / 262144, 0x80 + c.toNat / 4096 % 64, 0x80 + c.toNat / 64 % 64,
      0x80 + c.toNat % 64]

/-- The bytes of a Go string. -/
def toBytes (s : Str) : List Nat :=
  (s.map utf8Encode).flatten

/-- Continuation byte of UTF-8. -/
def isCont (b : Nat) : Bool :=
  decide (0x80 ≤ b ∧ b ≤ 0xBF)

/-- Function `utf8.DecodeRune`: the first rune of a byte sequence and its width;
a byte that starts no valid encoding is read as U+FFFD of width 1. -/
def DecodeRune : List Nat → Char × Nat
  | [] => (Char.ofNat 0xFFFD, 0)
  | b0 :: rest =>
    if b0 < 0x80 then (Char.ofNat b0, 1)
    else if 0xC2 ≤ b0 ∧ b0 ≤ 0xDF then
      match rest with
      | b1 :: _ =>
        if isCont b1 then (Char.ofNat ((b0 - 0xC0) * 64 + (b1 - 0x80)), 2)
        else (Char.ofNat 0xFFFD, 1)
      | [] => (Char.ofNat 0xFFFD, 1)
    else if 0xE0 ≤ b0 ∧ b0 ≤ 0xEF then
      match rest with
      | b1 :: b2 :: _ =>
        if (if b0 = 0xE0 then 0xA0 else 0x80) ≤ b1 ∧ b1 ≤ (if b0 = 0xED then 0x9F else 0xBF)
            ∧ isCont b2 then
          (Char.ofNat ((b0 - 0xE0) * 4096 + (b1 - 0x80) * 64 + (b2 - 0x80)), 3)
        else (Char.ofNat 0xFFFD, 1)
      | _ => (Char.ofNat 0xFFFD, 1)
    else if 0xF0 ≤ b0 ∧ b0 ≤ 0xF4 then
      match rest with
      | b1 :: b2 :: b3 :: _ =>
        if (if b0 = 0xF0 then 0x90 else 0x80) ≤ b1 ∧ b1 ≤ (if b0 = 0xF4 then 0x8F else 0xBF)
            ∧ isCont b2 ∧ isCont b3 then
          (Char.ofNat ((b0 - 0xF0) * 262144 + (b1 - 0x80) * 4096 + (b2 - 0x80) * 64
            + (b3 - 0x80)), 4)
        else (Char.ofNat 0xFFFD, 1)
      | _ => (Char.ofNat 0xFFFD, 1)
    else (Char.ofNat 0xFFFD, 1)

/-- The runes of a byte sequence, read one `DecodeRune` after the other (at most
`fuel` of them). -/
def fromBytesAux : Nat → List Nat → Str
  | 0, _ => []
  | _ + 1, [] => []
  | fuel + 1, b :: rest =>
    (DecodeRune (b :: rest)).1 :: fromBytesAux fuel ((b :: rest).drop (DecodeRune (b :: rest)).2)

/-- The code points of a byte sequence, the way Go ranges over a string: a byte
that is not part of a valid UTF-8 encoding is read as U+FFFD. -/
def fromBytes (bytes : List Nat) : Str :=
  fromBytesAux bytes.length bytes

/-- Hexadecimal digit test of `net/url`, on a byte. -/
def ishex (c : Nat) : Bool :=
  decide ((48 ≤ c ∧ c ≤ 57) ∨ (97 ≤ c ∧ c ≤ 102) ∨ (65 ≤ c ∧ c ≤ 70))

/-- Value of a hexadecimal digit. -/
def unhex (c : Nat) : Nat :=
  if 48 ≤ c ∧ c ≤ 57 then c - 48
  else if 97 ≤ c ∧ c ≤ 102 then c - 97 + 10
  else if 65 ≤ c ∧ c ≤ 70 then c - 65 + 10
  else 0

/-- Function `unescape` of `net/url` in query-component mode, on the bytes of
the string: `%XX` becomes the byte `XX`, `+` becomes a space; `none` is an
escape error. -/
def unescape : List Nat → Option (List Nat)
  | [] => some []
  | c :: rest =>
    if c = 37 then
      match rest with
      | a :: b :: rest2 =>
        if ishex a ∧ ishex b then (unescape rest2).map (fun t => (unhex a * 16 + unhex b) :: t)
        else none
      | _ => none
    else if c = 43 then (unescape rest).map (fun t => 32 :: t)
    else (unescape rest).map (fun t => c :: t)

/-- Function `url.QueryUnescape`; `none` is an escape error.  The escapes are
decoded on the bytes of the string and the result is read back as UTF-8. -/
def QueryUnescape (s : Str) : Option Str :=
  (unescape (toBytes s)).map fromBytes

/-- Function `strings.Cut` with a separator of one character: the text before
the first separator and the text after it. -/
def cut (sep : Char) : Str → Str × Str
  | [] => ([], [])
  | c :: cs => if c = sep then ([], cs) else ((c :: (cut sep cs).1), (cut sep cs).2)

/-- Body of the loop of `url.parseQuery` for one `&`-separated piece: the values
and the error flag afterwards. -/
def parseQueryStep (acc : Values × Bool) (piece : Str) : Values × Bool :=
  if ';' ∈ piece then (acc.1, true)
  else if piece = [] then acc
  else
    match QueryUnescape (cut '=' piece).1 with
    | none => (acc.1, true)
    | some key =>
      match QueryUnescape (cut '=' piece).2 with
      | none => (acc.1, true)
      | some value => (GoMap.set acc.1 key (((GoMap.get? acc.1 key).getD []) ++ [value]), acc.2)

/-- Function `url.ParseQuery`: the values (kept also when an error is reported)
and whether an error is reported.  The loop cuts the query at each `&`. -/
def ParseQuery (query : Str) : Values × Bool :=
  (splitChar '&' query).foldl parseQueryStep ([], false)

/-! ## Requests and responses (`net/http`) -/

/-- The fields of `url.URL` the handler reads. -/
structure URL where
  /-- Field `RawQuery`. -/
  RawQuery : Str
  /-- Value of the method `String()`: the URL reassembled, its path re-encoded. -/
  String : Str

/-- Method `(*URL).Query`: the parsed query, parse errors dropped. -/
def URL.Query (u : URL) : Values :=
  (ParseQuery u.RawQuery).1

/-- A request body stream: what is still unread, and whether reading it reports
an error other than end of file. -/
structure Reader where
  pending : Str
  failing : Bool

/-- Function `io.ReadAll`: the bytes read, the error flag and the stream
afterwards (at end of file). -/
def Reader.ReadAll (rd : Reader) : Str × Bool × Reader :=
  (rd.pending, rd.failing, { pending := [], failing := rd.failing })

/-- Bound `maxFormSize` of `parsePostForm` (10 MB). -/
def maxFormSize : Nat := 10485760

/-- Function `io.ReadAll` on `io.LimitReader rd n`: at most `n` bytes of the
stream and the error flag. -/
def Reader.ReadLimited (rd : Reader) (n : Nat) : List Nat × Bool :=
  ((toBytes rd.pending).take n, rd.failing)

/-- An `http.Request` as the server (or `http.NewRequest`) hands it to the
handler: `URL` is set, `PostForm` and `Form` are not yet parsed. -/
structure Request where
  Method : Str
  RequestURI : Str
  URL : URL
  Header : GoMap (List Str)
  Body : Option Reader

/-- Method `Header.Get` for a key in canonical form. -/
def headerGet (h : GoMap (List Str)) (key : Str) : Str :=
  match GoMap.get? h key with
  | some (v :: _) => v
  | _ => []

/-- Type `RequestLog`. -/
structure RequestLog where
  Method : Str
  URL : Str
  Header : GoMap Str
  Get : GoMap Str
  Post : GoMap Str
  Data : Str
deriving DecidableEq

/-- State of an `http.ResponseWriter`. -/
structure ResponseWriter where
  header : GoMap Str
  status : Option Nat
  body : Str
deriving DecidableEq

/-- A fresh response writer. -/
def ResponseWriter.new : ResponseWriter :=
  { header := [], status := none, body := [] }

/-- Call `w.Header().Set(key, value)`. -/
def ResponseWriter.Set (w : ResponseWriter) (key value : Str) : ResponseWriter :=
  { w with header := GoMap.set w.header key value }

/-- Call `w.WriteHeader(code)`; a second call is ignored. -/
def ResponseWriter.WriteHeader (w : ResponseWriter) (code : Nat) : ResponseWriter :=
  match w.status with
  | none => { w with status := some code }
  | some _ => w

/-- Call `w.Write(data)`; it sends status 200 first when no status was sent. -/
def ResponseWriter.Write (w : ResponseWriter) (data : Str) : ResponseWriter :=
  let w1 := w.WriteHeader 200
  { w1 with body := w1.body ++ data }

/-- Function `http.Error`. -/
def httpError (w : ResponseWriter) (error : Str) (code : Nat) : ResponseWriter :=
  (((w.Set "Content-Type".toList "text/plain; charset=utf-8".toList).Set
    "X-Content-Type-Options".toList "nosniff".toList).WriteHeader code).Write (error ++ ['\n'])

/-! ## File system and environment -/

/-- What a path names. -/
inductive Node where
  | dir : Node
  | file : Str → Node
deriving DecidableEq

/-- The file system: the existing paths and what they name. -/
abbrev FS := GoMap Node

/-- The proper ancestors of a path: its non-empty proper prefixes that end right
before a separator, shortest first.  `pre` is the part already read, reversed. -/
def ancestorsAux (pre : Str) : Str → List Str
  | [] => []
  | c :: cs =>
    if c = '/' ∧ pre ≠ [] then pre.reverse :: ancestorsAux (c :: pre) cs
    else ancestorsAux (c :: pre) cs

/-- The proper ancestors of a path (`a` and `a/b` for `a/b/c`). -/
def ancestors (path : Str) : List Str :=
  ancestorsAux [] path

/-- Whether a path names a regular file. -/
def isFile (fs : FS) (path : Str) : Bool :=
  match GoMap.get? fs path with
  | some (Node.file _) => true
  | _ => false

/-- The three outcomes of `os.Stat` the code tells apart. -/
inductive StatResult where
  /-- No error: the path exists. -/
  | found : Node → StatResult
  /-- An error for which `os.IsNotExist` holds. -/
  | notExist : StatResult
  /-- Any other error. -/
  | otherError : StatResult
deriving DecidableEq

/-- The environment of one handler call. -/
structure Env where
  /-- Global `logDir`. -/
  logDir : Str
  /-- Value of `time.Now()`. -/
  now : Time
  /-- Whether `os.Stat path` fails for a reason the file system below does not
  show (a directory that may not be searched, a name that is too long, an I/O
  error). -/
  statFails : Str → Bool
  /-- Whether `os.MkdirAll path 0777` fails for a reason the file system below
  does not show (permissions, a full disk). -/
  mkdirAllFails : Str → Bool
  /-- Whether `os.WriteFile path data 0644` returns an error. -/
  writeFileFails : Str → Str → Bool
  /-- Function `json.MarshalIndent request "" "  "`; `none` is an error. -/
  marshalIndent : RequestLog → Option Str
  /-- How `json.Marshal` writes a string value. -/
  jsonString : Str → Str
  /-- Function `mime.ParseMediaType`: the media type and the error flag. -/
  parseMediaType : Str → Str × Bool
  /-- Order in which a `range` statement visits the entries of a map. -/
  range : GoMap (List Str) → List (Str × List Str)
  /-- A `range` statement visits every entry once. -/
  range_perm : ∀ m, (range m).Perm m

/-- Call `os.Stat`.  It fails with an error other than not-exist when the
environment says so or when an ancestor of the path is a regular file
(`ENOTDIR`); otherwise it fails with a not-exist error exactly when the path
has no entry. -/
def Stat (env : Env) (fs : FS) (path : Str) : StatResult :=
  if env.statFails path then StatResult.otherError
  else if (ancestors path).any (isFile fs) then StatResult.otherError
  else
    match GoMap.get? fs path with
    | some n => StatResult.found n
    | none => StatResult.notExist

/-- Create one directory of the chain of `os.MkdirAll` unless the path exists. -/
def mkdirIfMissing (fs : FS) (path : Str) : FS :=
  if GoMap.get? fs path = none then GoMap.set fs path Node.dir else fs

/-- Call `os.MkdirAll`: the error flag and the file system afterwards.  It fails
when the environment says so or when the path or one of its ancestors is a
regular file; otherwise it creates the missing ancestors and the path. -/
def MkdirAll (env : Env) (fs : FS) (path : Str) : Bool × FS :=
  if env.mkdirAllFails path ∨ (ancestors path ++ [path]).any (isFile fs) then (true, fs)
  else (false, (ancestors path ++ [path]).foldl mkdirIfMissing fs)

/-- Call `os.WriteFile`: the error flag and the file system afterwards. -/
def WriteFile (env : Env) (fs : FS) (path data : Str) : Bool × FS :=
  if env.writeFileFails path data then (true, fs)
  else (false, GoMap.set fs path (Node.file data))

/-! ## `createLogDir` -/

/-- Result of `fmt.Sprintf("%s-%03d", baseDir, num)`. -/
def dirName (baseDir : Str) (num : Nat) : Str :=
  baseDir ++ '-' :: zeroPad 3 num

/-- The `for` loop of `createLogDir`, from sequence number `num`: it is left only
when `os.Stat` fails with an error for which `os.IsNotExist` holds.  The counter
`num` is a Go `int`; it cannot wrap before 2^63 candidates were tried and is a
`Nat`. -/
def createLogDirLoop (env : Env) (fs : FS) (baseDir : Str) :
    Nat → Nat → Option (Str × Bool × FS)
  | 0, _ => none
  | fuel + 1, num =>
    if Stat env fs (dirName baseDir num) = StatResult.notExist then
      some (dirName baseDir num, MkdirAll env fs (dirName baseDir num))
    else createLogDirLoop env fs baseDir fuel (num + 1)

/-- Value of `baseDir` in `createLogDir`. -/
def baseDir (env : Env) : Str :=
  Join env.logDir env.now.Format

/-- Function `createLogDir`: the path, the error flag of `MkdirAll` and the file
system afterwards. -/
def createLogDir (env : Env) (fuel : Nat) (fs : FS) : Option (Str × Bool × FS) :=
  createLogDirLoop env fs (baseDir env) fuel 1

/-! ## `ParseForm` -/

/-- Function `parsePostForm` of `net/http`: the parsed body (`none` is a nil
map) and the error flag. -/
def parsePostForm (env : Env) (r : Request) : Option Values × Bool :=
  match r.Body with
  | none => (none, true)
  | some body =>
    let ct := headerGet r.Header "Content-Type".toList
    let mt := env.parseMediaType (if ct = [] then "application/octet-stream".toList else ct)
    if mt.1 = "application/x-www-form-urlencoded".toList then
      let b := body.ReadLimited (maxFormSize + 1)
      if b.2 then (none, true)
      else if b.1.length > maxFormSize then (none, true)
      else (some (ParseQuery (fromBytes b.1)).1, mt.2 || (ParseQuery (fromBytes b.1)).2)
    else (none, mt.2)

/-- Method `(*Request).ParseForm` on a request whose forms are not parsed yet:
the field `PostForm` afterwards and whether an error is returned. -/
def ParseForm (env : Env) (r : Request) : Values × Bool :=
  let p : Option Values × Bool :=
    if r.Method = "POST".toList ∨ r.Method = "PUT".toList ∨ r.Method = "PATCH".toList then
      parsePostForm env r
    else (none, false)
  (p.1.getD [], p.2 || (ParseQuery r.URL.RawQuery).2)

/-! ## `handler` -/

/-- Local `cleanName` of the header loop. -/
def cleanName (name : Str) : Str :=
  TrimSpace (ReplaceAll (ReplaceAll name dq []) bs [])

/-- Local `cleanValue` of the header loop. -/
def cleanValue (value : Str) : Str :=
  TrimSpace (ReplaceAll value dq [bs, dq])

/-- Body of the loop over `r.Header`. -/
def headerStep (m : GoMap Str) (e : Str × List Str) : GoMap Str :=
  match e.2 with
  | [] => m
  | v :: _ => if cleanName e.1 ≠ [] then GoMap.set m (cleanName e.1) (cleanValue v) else m

/-- Body of the loops over `r.URL.Query()` and over `r.PostForm`. -/
def paramStep (m : GoMap Str) (e : Str × List Str) : GoMap Str :=
  match e.2 with
  | [] => m
  | v :: _ => if TrimSpace e.1 ≠ [] then GoMap.set m (TrimSpace e.1) (TrimSpace v) else m

/-- Local `requestURL`. -/
def requestURL (r : Request) : Str :=
  if r.RequestURI = [] then r.URL.String else r.RequestURI

/-- The value of `request` when it is serialised (lines 71 to 125); `r` is the
request after its body was read, `body` the bytes read. -/
def buildRecord (env : Env) (r : Request) (body : Str) : RequestLog :=
  { Method := r.Method
    URL := requestURL r
    Header := (env.range r.Header).foldl headerStep []
    Get := (env.range r.URL.Query).foldl paramStep []
    Post :=
      if r.Method = "POST".toList then
        (if (ParseForm env r).2 then [] else (env.range (ParseForm env r).1).foldl paramStep [])
      else []
    Data := body }

/-- Lines 61 to 69: the bytes read, the error flag and the request afterwards. -/
def readBody (r : Request) : Str × Bool × Request :=
  match r.Body with
  | none => ([], false, r)
  | some rd => (rd.ReadAll.1, rd.ReadAll.2.1, { r with Body := some rd.ReadAll.2.2 })

/-- The response body on success: `json.Marshal` of the map with the keys
`status`, `message` and `logDir` (keys in sorted order).  Marshalling a
`map[string]string` has no error case, so the branch at lines 159 to 162 is
never taken and is left out. -/
def successJSON (env : Env) (dirLog : Str) : Str :=
  [Char.ofNat 123, dq] ++ "logDir".toList ++ [dq, ':'] ++ env.jsonString dirLog ++
    [',', dq] ++ "message".toList ++ [dq, ':', dq] ++ "ログが保存されました".toList ++
    [dq, ',', dq] ++ "status".toList ++ [dq, ':', dq] ++ "success".toList ++
    [dq, Char.ofNat 125]

/-- What a call of `handler` leaves behind: the response, the file system and
the files written by successful `os.WriteFile` calls (path and contents). -/
structure Result where
  w : ResponseWriter
  fs : FS
  written : List (Str × Str)
deriving DecidableEq

/-- The response writer after lines 44 to 47. -/
def corsHeaders (w : ResponseWriter) : ResponseWriter :=
  (((w.Set "Access-Control-Allow-Origin".toList "*".toList).Set
      "Access-Control-Allow-Methods".toList "GET, POST, PUT, DELETE, OPTIONS".toList).Set
      "Access-Control-Allow-Headers".toList
      "Content-Type, Authorization, X-Requested-With".toList).Set
      "Access-Control-Max-Age".toList "86400".toList

/-- Lines 127 to 164 of `handler`, after the directory was created and the body
read. -/
def persist (env : Env) (w : ResponseWriter) (fs : FS) (dirLog : Str) (r : Request)
    (body : Str) : Result :=
  match env.marshalIndent (buildRecord env r body) with
  | none => { w := httpError w "ログデータのシリアライズに失敗しました".toList 500, fs := fs, written := [] }
  | some logData =>
    if (WriteFile env fs (Join dirLog "log.txt".toList) logData).1 then
      { w := httpError w "ログファイルの書き込みに失敗しました".toList 500, fs := fs, written := [] }
    else
      let fs1 := (WriteFile env fs (Join dirLog "log.txt".toList) logData).2
      let logged := [(Join dirLog "log.txt".toList, logData)]
      if body.length > 0 then
        if (WriteFile env fs1 (Join dirLog "data.txt".toList) body).1 then
          { w := httpError w "データファイルの書き込みに失敗しました".toList 500, fs := fs1,
            written := logged }
        else
          { w := (((w.Set "Content-Type".toList "application/json; charset=utf-8".toList).WriteHeader
                200).Write (successJSON env dirLog))
            fs := (WriteFile env fs1 (Join dirLog "data.txt".toList) body).2
            written := logged ++ [(Join dirLog "data.txt".toList, body)] }
      else
        { w := (((w.Set "Content-Type".toList "application/json; charset=utf-8".toList).WriteHeader
              200).Write (successJSON env dirLog))
          fs := fs1
          written := logged }

/-- Function `handler`; `none` when `createLogDir` has not returned within the
fuel. -/
def handler (env : Env) (fuel : Nat) (fs : FS) (r : Request) : Option Result :=
  let w := corsHeaders ResponseWriter.new
  if r.Method = "OPTIONS".toList then
    some { w := w.WriteHeader 200, fs := fs, written := [] }
  else
    match createLogDir env fuel fs with
    | none => none
    | some (dirLog, err, fs1) =>
      if err then
        some { w := httpError w "ディレクトリ作成に失敗しました".toList 500, fs := fs1, written := [] }
      else if (readBody r).2.1 then
        some { w := httpError w "リクエストボディの読み取りに失敗しました".toList 500, fs := fs1,
               written := [] }
      else
        some (persist env w fs1 dirLog (readBody r).2.2 (readBody r).1)

/-! ## `main`: the listening port -/

/-- Lines 169 to 191 of `main`: the value of `*port` when the server starts.
`flagPort` is the argument of `-port` when the flag is given, `envPort` the
value of the variable `PORT` when it is set. -/
def listenPort (flagPort : Option Str) (envPort : Option Str) : Str :=
  let port := flagPort.getD "8080".toList
  let getenv := envPort.getD []
  if port = "8080".toList then (if getenv ≠ [] then getenv else port) else port

/-! ## Auxiliary definitions for the statements -/

/-- The number a text of decimal digits denotes. -/
def decValue (s : Str) : Nat :=
  s.foldl (fun a c => 10 * a + (c.toNat - 48)) 0

/-- Exactly `k` decimal digits followed by a text accepted by `next`. -/
def digitsThen : Nat → (Str → Bool) → Str → Bool
  | 0, next, s => next s
  | _ + 1, _, [] => false
  | k + 1, next, c :: s => c.isDigit && digitsThen k next s

/-- A hyphen followed by a text accepted by `next`. -/
def hyphenThen (next : Str → Bool) : Str → Bool
  | [] => false
  | c :: s => c == '-' && next s

/-- Full match of the pattern `\d{8}-\d{6}-\d{3}`. -/
def matchesDirPattern (s : Str) : Bool :=
  digitsThen 8 (hyphenThen (digitsThen 6 (hyphenThen
    (digitsThen 3 (fun t => t.isEmpty))))) s

/-- Full match of the pattern `\d{8}-\d{6}-\d{3,}` (three or more final digits). -/
def matchesDirPatternWide (s : Str) : Bool :=
  digitsThen 8 (hyphenThen (digitsThen 6 (hyphenThen
    (digitsThen 3 (fun t => t.all Char.isDigit))))) s

/-- A path component that `filepath.Clean` keeps as it is: not empty, not `.`,
not `..`, without separator. -/
def isPlainName (s : Str) : Prop :=
  s ≠ [] ∧ s ≠ ['.'] ∧ s ≠ ['.', '.'] ∧ '/' ∉ s

/-- A file system in which exactly the first `k` candidate directories of a
base name exist. -/
def busyFS (base : Str) (k : Nat) : FS :=
  (List.range k).map (fun i => (dirName base (i + 1), Node.dir))

/-- The texts `handler` passes to `http.Error`. -/
def errorTexts : List Str :=
  ["ディレクトリ作成に失敗しました".toList, "リクエストボディの読み取りに失敗しました".toList,
   "ログデータのシリアライズに失敗しました".toList, "ログファイルの書き込みに失敗しました".toList,
   "データファイルの書き込みに失敗しました".toList]

/-- The bytes the body stream of a request delivers (none without a body). -/
def bodyBytes (r : Request) : Str :=
  match r.Body with
  | none => []
  | some rd => rd.pending

/-- The request once its body stream has been read to the end. -/
def drained (r : Request) : Request :=
  { r with Body := r.Body.map (fun rd => { pending := [], failing := rd.failing }) }

/-- Every step `handler` performs for a request succeeds: the creation of the
directory `dirLog` (a path `os.Stat` has just reported as not existing), the
read of the body stream, the serialisation of the record, the write of
`log.txt` and, when the body is not empty, the write of `data.txt`. -/
def stepsSucceed (env : Env) (dirLog : Str) (r : Request) : Prop :=
  env.mkdirAllFails dirLog = false ∧
  (∀ rd, r.Body = some rd → rd.failing = false) ∧
  ∃ logData, env.marshalIndent (buildRecord env (drained r) (bodyBytes r)) = some logData ∧
    env.writeFileFails (Join dirLog "log.txt".toList) logData = false ∧
    (bodyBytes r ≠ [] →
      env.writeFileFails (Join dirLog "data.txt".toList) (bodyBytes r) = false)

/-- The value a mapping built by one of the three loops holds under key `k`
after the entries `es` were visited in this order: the cleaned first value of
the last visited entry that has a value and whose cleaned name is `k`, and
nothing when `k` is empty or there is no such entry.  `ck` cleans names, `cv`
cleans values. -/
def lastVisited (ck cv : Str → Str) (es : List (Str × List Str)) (k : Str) : Option Str :=
  match es.reverse.find? (fun e => decide (e.2 ≠ [] ∧ ck e.1 = k ∧ k ≠ [])) with
  | some e => e.2.head?.map cv
  | none => none

/-! ## Sample values -/

/-- An environment in which no call fails; maps are visited in stored order and
the stand-in serialiser writes the method and the URL of the record. -/
def Env.plain : Env :=
  { logDir := "logs".toList
    now := { year := 2024, month := 1, day := 15, hour := 9, minute := 5, second := 3,
             inRange := by decide }
    statFails := fun _ => false
    mkdirAllFails := fun _ => false
    writeFileFails := fun _ _ => false
    marshalIndent := fun rec => some (rec.Method ++ ' ' :: rec.URL)
    jsonString := fun s => dq :: s ++ [dq]
    parseMediaType := fun s => (s, false)
    range := fun m => m
    range_perm := fun m => List.Perm.refl m }

/-- The request `POST /test` of `TestHandlerPOSTRequest`, built by
`http.NewRequest` (so `RequestURI` is empty). -/
def postFormRequest : Request :=
  { Method := "POST".toList
    RequestURI := []
    URL := { RawQuery := [], String := "/test".toList }
    Header := [("Content-Type".toList, ["application/x-www-form-urlencoded".toList])]
    Body := some { pending := "key1=value1&key2=value2".toList, failing := false } }

/-- The request `GET /a b` as `http.NewRequest("GET", "/a b", nil)` builds it:
no request line, so `RequestURI` is empty, and `URL.String()` re-encodes the
path. -/
def newRequestSpace : Request :=
  { Method := "GET".toList
    RequestURI := []
    URL := { RawQuery := [], String := "/a%20b".toList }
    Header := []
    Body := none }

/-- The request `GET /test?param=value` with header `User-Agent: test` as the
server receives it from the wire. -/
def wireGetRequest : Request :=
  { Method := "GET".toList
    RequestURI := "/test?param=value".toList
    URL := { RawQuery := "param=value".toList, String := "/test?param=value".toList }
    Header := [("User-Agent".toList, ["test".toList])]
    Body := some { pending := [], failing := false } }

/-- The result of `handler` on `postFormRequest` in `Env.plain` with an empty
file system. -/
def postFormResult : Result :=
  { w := (((corsHeaders ResponseWriter.new).Set "Content-Type".toList
        "application/json; charset=utf-8".toList).WriteHeader 200).Write
        (successJSON Env.plain "logs/20240115-090503-001".toList)
    fs := [("logs".toList, Node.dir), ("logs/20240115-090503-001".toList, Node.dir),
           ("logs/20240115-090503-001/log.txt".toList, Node.file "POST /test".toList),
           ("logs/20240115-090503-001/data.txt".toList,
             Node.file "key1=value1&key2=value2".toList)]
    written := [("logs/20240115-090503-001/log.txt".toList, "POST /test".toList),
                ("logs/20240115-090503-001/data.txt".toList,
                  "key1=value1&key2=value2".toList)] }

/-- A request `POST /upload` whose body stream breaks after the bytes `abc`. -/
def failingBodyRequest : Request :=
  { Method := "POST".toList
    RequestURI := "/upload".toList
    URL := { RawQuery := [], String := "/upload".toList }
    Header := []
    Body := some { pending := "abc".toList, failing := true } }

/-- The result of `handler` on `failingBodyRequest` in `Env.plain` with an
empty file system. -/
def failingBodyResult : Result :=
  { w := { header := [("Access-Control-Allow-Origin".toList, "*".toList),
             ("Access-Control-Allow-Methods".toList, "GET, POST, PUT, DELETE, OPTIONS".toList),
             ("Access-Control-Allow-Headers".toList,
               "Content-Type, Authorization, X-Requested-With".toList),
             ("Access-Control-Max-Age".toList, "86400".toList),
             ("Content-Type".toList, "text/plain; charset=utf-8".toList),
             ("X-Content-Type-Options".toList, "nosniff".toList)]
           status := some 500
           body := "リクエストボディの読み取りに失敗しました\n".toList }
    fs := [("logs".toList, Node.dir), ("logs/20240115-090503-001".toList, Node.dir)]
    written := [] }

/-- The result of `handler` on `wireGetRequest` in `Env.plain` with an empty
file system. -/
def wireGetResult : Result :=
  { w := (((corsHeaders ResponseWriter.new).Set "Content-Type".toList
        "application/json; charset=utf-8".toList).WriteHeader 200).Write
        (successJSON Env.plain "logs/20240115-090503-001".toList)
    fs := [("logs".toList, Node.dir), ("logs/20240115-090503-001".toList, Node.dir),
           ("logs/20240115-090503-001/log.txt".toList,
             Node.file "GET /test?param=value".toList)]
    written := [("logs/20240115-090503-001/log.txt".toList, "GET /test?param=value".toList)] }

/-- The environment `Env.plain` with the log directory `f/sub`. -/
def Env.underFile : Env :=
  { Env.plain with logDir := "f/sub".toList }

/-- A file system that holds the regular file `f` and nothing else. -/
def fileFS : FS :=
  [("f".toList, Node.file [])]

/-- The environment `Env.plain` with maps visited in the opposite order. -/
def Env.flipped : Env :=
  { Env.plain with
    range := fun m => m.reverse
    range_perm := fun m => List.reverse_perm m }

/-- The request `GET /?+a=1&a=2` received from the wire: the query has the
parameters ` a` (with a leading space) and `a`. -/
def collidingQueryRequest : Request :=
  { Method := "GET".toList
    RequestURI := "/?+a=1&a=2".toList
    URL := { RawQuery := "+a=1&a=2".toList, String := "/?+a=1&a=2".toList }
    Header := []
    Body := some { pending := [], failing := false } }

/-- A request `GET /` with the header `X-Test: a"b` (the value has a double
quote between `a` and `b`). -/
def quotedHeaderRequest : Request :=
  { Method := "GET".toList
    RequestURI := "/".toList
    URL := { RawQuery := [], String := "/".toList }
    Header := [("X-Test".toList, [['a', dq, 'b']])]
    Body := some { pending := [], failing := false } }

/-! ## Checks of the library models on known values -/

theorem Clean_samples :
    Clean "a//b/../c/.".toList = "a/c".toList ∧ Clean "/../a".toList = "/a".toList ∧
    Clean "../../a/..".toList = "../..".toList ∧ Clean "/".toList = "/".toList ∧
    Clean "a/..".toList = ".".toList ∧ Clean [] = ".".toList := by
  decide

theorem Join_samples :
    Join "logs".toList "x".toList = "logs/x".toList ∧
    Join "logs/".toList "x".toList = "logs/x".toList ∧
    Join [] "x".toList = "x".toList ∧ Join "a".toList [] = "a".toList := by
  decide

theorem zeroPad_samples :
    zeroPad 3 7 = "007".toList ∧ zeroPad 3 999 = "999".toList ∧
    zeroPad 3 1000 = "1000".toList ∧ zeroPad 2 5 = "05".toList := by
  decide

theorem Format_sample :
    (Time.mk 2024 1 15 9 5 3 (by decide)).Format = "20240115-090503".toList := by
  decide

theorem QueryUnescape_samples :
    QueryUnescape "%C2%A0a+b".toList = some [Char.ofNat 0xA0, 'a', ' ', 'b'] ∧
    QueryUnescape "%E3%81%82".toList = some "あ".toList ∧
    QueryUnescape "あ%41".toList = some "あA".toList ∧
    QueryUnescape "%80x".toList = some [Char.ofNat 0xFFFD, 'x'] ∧
    QueryUnescape "%4".toList = none ∧
    TrimSpace ((QueryUnescape "%C2%A0a".toList).getD []) = "a".toList := by
  decide

theorem ancestors_samples :
    ancestors "a/b/c".toList = ["a".toList, "a/b".toList] ∧
    ancestors "/a/b".toList = ["/a".toList] ∧ ancestors "a".toList = [] := by
  decide

theorem MkdirAll_samples :
    MkdirAll Env.plain [] "logs/x".toList
      = (false, [("logs".toList, Node.dir), ("logs/x".toList, Node.dir)]) ∧
    MkdirAll Env.plain [("logs".toList, Node.dir)] "logs/x".toList
      = (false, [("logs".toList, Node.dir), ("logs/x".toList, Node.dir)]) ∧
    MkdirAll Env.plain fileFS "f/sub".toList = (true, fileFS) ∧
    Stat Env.plain fileFS "f/sub".toList = StatResult.otherError ∧
    Stat Env.plain fileFS "g".toList = StatResult.notExist ∧
    Stat Env.plain fileFS "f".toList = StatResult.found (Node.file []) := by
  decide

theorem TrimSpace_samples :
    TrimSpace " \t a b \n".toList = "a b".toList ∧ TrimSpace "   ".toList = [] := by
  decide

theorem ParseForm_unread_body : (ParseForm Env.plain postFormRequest) =
    ([("key1".toList, ["value1".toList]), ("key2".toList, ["value2".toList])], false) := by
  decide

theorem ParseQuery_sample : (ParseQuery "a=1&+a=2&a=3&b&%41=x%2".toList) =
    ([("a".toList, ["1".toList, "3".toList]), (" a".toList, ["2".toList]), ("b".toList, [[]])], true) := by
  decide

theorem handler_sample_written : (handler Env.plain 5 [] postFormRequest).map (fun x => x.written) =
    some [("logs/20240115-090503-001/log.txt".toList, "POST /test".toList),
          ("logs/20240115-090503-001/data.txt".toList, "key1=value1&key2=value2".toList)] := by
  decide

/-! ## Decimal digits -/

theorem digitChar_toNat (d : Nat) (h : d < 10) : (Nat.digitChar d).toNat - 48 = d := by
  interval_cases d <;> rfl

theorem digitChar_isDigit (d : Nat) (h : d < 10) : (Nat.digitChar d).isDigit = true := by
  interval_cases d <;> rfl

theorem toDigitsCore_acc (fuel : Nat) : ∀ (n : Nat) (ds : List Char),
    Nat.toDigitsCore 10 fuel n ds = Nat.toDigitsCore 10 fuel n [] ++ ds := by
  induction fuel with
  | zero => intro n ds; simp [Nat.toDigitsCore]
  | succ f ih =>
    intro n ds
    simp only [Nat.toDigitsCore]
    by_cases h : n / 10 = 0
    · simp [h]
    · simp only [h, if_false]
      rw [ih (n / 10) (Nat.digitChar (n % 10) :: ds), ih (n / 10) [Nat.digitChar (n % 10)]]
      simp

theorem decValue_snoc (l : Str) (c : Char) :
    decValue (l ++ [c]) = 10 * decValue l + (c.toNat - 48) := by
  simp [decValue, List.foldl_append]

theorem decValue_toDigitsCore (fuel : Nat) : ∀ n : Nat, n < fuel →
    decValue (Nat.toDigitsCore 10 fuel n []) = n := by
  induction fuel with
  | zero => intro n h; omega
  | succ f ih =>
    intro n hn
    simp only [Nat.toDigitsCore]
    by_cases h : n / 10 = 0
    · simp only [h, if_true]
      have hlt : n % 10 < 10 := Nat.mod_lt _ (by decide)
      have : decValue [Nat.digitChar (n % 10)] = n % 10 := by
        simp [decValue, digitChar_toNat _ hlt]
      rw [this]; omega
    · simp only [h, if_false]
      rw [toDigitsCore_acc, decValue_snoc, ih (n / 10) (by omega),
        digitChar_toNat _ (Nat.mod_lt _ (by decide))]
      omega

theorem decValue_toDigits (n : Nat) : decValue (Nat.toDigits 10 n) = n :=
  decValue_toDigitsCore (n + 1) n (Nat.lt_succ_self n)

theorem toDigitsCore_isDigit (fuel : Nat) : ∀ (n : Nat) (c : Char),
    c ∈ Nat.toDigitsCore 10 fuel n [] → c.isDigit = true := by
  induction fuel with
  | zero => intro n c h; simp [Nat.toDigitsCore] at h
  | succ f ih =>
    intro n c hc
    simp only [Nat.toDigitsCore] at hc
    by_cases h : n / 10 = 0
    · simp only [h, if_true, List.mem_singleton] at hc
      rw [hc]; exact digitChar_isDigit _ (Nat.mod_lt _ (by decide))
    · simp only [h, if_false] at hc
      rw [toDigitsCore_acc] at hc
      rcases List.mem_append.1 hc with h1 | h1
      · exact ih _ _ h1
      · rw [List.mem_singleton.1 h1]; exact digitChar_isDigit _ (Nat.mod_lt _ (by decide))

theorem toDigits_isDigit (n : Nat) (c : Char) (h : c ∈ Nat.toDigits 10 n) :
    c.isDigit = true :=
  toDigitsCore_isDigit _ _ _ h

theorem decValue_replicate_zero (k : Nat) (l : Str) :
    decValue (List.replicate k '0' ++ l) = decValue l := by
  induction k with
  | zero => simp
  | succ k ih =>
    simp only [decValue] at ih ⊢
    simp only [List.replicate_succ, List.cons_append, List.foldl_cons]
    exact ih

theorem decValue_zeroPad (w n : Nat) : decValue (zeroPad w n) = n := by
  rw [zeroPad, decValue_replicate_zero, decValue_toDigits]

theorem zeroPad_injective (w : Nat) : Function.Injective (zeroPad w) := by
  intro a b h
  have := congrArg decValue h
  rwa [decValue_zeroPad, decValue_zeroPad] at this

theorem dirName_injective (base : Str) : Function.Injective (dirName base) := by
  intro a b h
  simp only [dirName, List.append_cancel_left_eq, List.cons.injEq, true_and] at h
  exact zeroPad_injective 3 h

theorem zeroPad_isDigit (w n : Nat) (c : Char) (h : c ∈ zeroPad w n) : c.isDigit = true := by
  rcases List.mem_append.1 h with h1 | h1
  · rw [(List.mem_replicate.1 h1).2]; rfl
  · exact toDigits_isDigit n c h1

theorem toDigits_length_le (n e : Nat) (he : 0 < e) (h : n < 10 ^ e) :
    (Nat.toDigits 10 n).length ≤ e :=
  Nat.toDigitsCore_length 10 (by decide) (n + 1) n e h he

theorem zeroPad_length (w n : Nat) (hw : 0 < w) (h : n < 10 ^ w) :
    (zeroPad w n).length = w := by
  have := toDigits_length_le n w hw h
  simp only [zeroPad, List.length_append, List.length_replicate]
  omega

theorem zeroPad_length_ge (w n : Nat) : w ≤ (zeroPad w n).length := by
  simp only [zeroPad, List.length_append, List.length_replicate]
  omega

theorem decValue_lt (l : Str) (h : ∀ c ∈ l, c.isDigit = true) :
    decValue l < 10 ^ l.length := by
  induction l using List.reverseRecOn with
  | nil => simp [decValue]
  | append_singleton l c ih =>
    rw [decValue_snoc]
    have h1 := ih (fun x hx => h x (List.mem_append_left _ hx))
    have hc := h c (by simp)
    have hc2 : c.toNat - 48 ≤ 9 := by
      simp only [Char.isDigit, Bool.and_eq_true, decide_eq_true_eq] at hc
      have h2 : c.val.toNat ≤ 57 := hc.2
      simp only [Char.toNat]
      omega
    simp only [List.length_append, List.length_singleton, pow_succ]
    omega

theorem zeroPad_length_gt (w n : Nat) (h : 10 ^ w ≤ n) : w < (zeroPad w n).length := by
  by_contra hcon
  have hlen : (zeroPad w n).length = w := le_antisymm (not_lt.1 hcon) (zeroPad_length_ge w n)
  have := decValue_lt (zeroPad w n) (zeroPad_isDigit w n)
  rw [decValue_zeroPad, hlen] at this
  omega

/-! ## Go maps -/

theorem GoMap.get?_mem_keys {α : Type} (m : GoMap α) (k : Str) (h : GoMap.get? m k ≠ none) :
    k ∈ m.map Prod.fst := by
  induction m with
  | nil => simp [GoMap.get?] at h
  | cons e rest ih =>
    obtain ⟨k1, v1⟩ := e
    simp only [GoMap.get?] at h
    by_cases hk : k1 = k
    · subst hk
      exact List.mem_cons_self _ _
    · simp only [hk, if_false] at h
      exact List.mem_cons_of_mem _ (ih h)

theorem GoMap.get?_set_self {α : Type} (m : GoMap α) (k : Str) (v : α) :
    GoMap.get? (GoMap.set m k v) k = some v := by
  induction m with
  | nil => simp [GoMap.set, GoMap.get?]
  | cons e rest ih =>
    obtain ⟨k1, v1⟩ := e
    by_cases hk : k1 = k
    · simp [GoMap.set, GoMap.get?, hk]
    · simp [GoMap.set, GoMap.get?, hk, ih]

theorem GoMap.get?_set_other {α : Type} (m : GoMap α) (k k2 : Str) (v : α) (h : k ≠ k2) :
    GoMap.get? (GoMap.set m k v) k2 = GoMap.get? m k2 := by
  induction m with
  | nil => simp [GoMap.set, GoMap.get?, h]
  | cons e rest ih =>
    obtain ⟨k1, v1⟩ := e
    by_cases hk : k1 = k
    · subst hk; simp [GoMap.set, GoMap.get?, h]
    · by_cases hk2 : k1 = k2
      · subst hk2
        simp [GoMap.set, GoMap.get?, hk]
      · simp [GoMap.set, GoMap.get?, hk, hk2, ih]

/-! ## `createLogDir` -/

theorem Stat_notExist_iff (env : Env) (fs : FS) (path : Str) :
    Stat env fs path = StatResult.notExist ↔
      env.statFails path = false ∧ (ancestors path).any (isFile fs) = false ∧
        GoMap.get? fs path = none := by
  unfold Stat
  by_cases h1 : env.statFails path = true
  · simp [h1]
  · by_cases h2 : (ancestors path).any (isFile fs) = true
    · simp only [h1, h2, if_true, if_false, Bool.false_eq_true]
      simp
    · cases h3 : GoMap.get? fs path with
      | none => simp only [h1, h2, if_false]; simp [h1, h2]
      | some n => simp only [h1, h2, if_false]; simp

theorem isFile_of_get?_none (fs : FS) (path : Str) (h : GoMap.get? fs path = none) :
    isFile fs path = false := by
  simp [isFile, h]

theorem MkdirAll_of_notExist (env : Env) (fs : FS) (path : Str)
    (h : Stat env fs path = StatResult.notExist) :
    MkdirAll env fs path
      = (env.mkdirAllFails path,
          if env.mkdirAllFails path then fs
          else (ancestors path ++ [path]).foldl mkdirIfMissing fs) := by
  obtain ⟨_, h2, h3⟩ := (Stat_notExist_iff env fs path).1 h
  have hany : (ancestors path ++ [path]).any (isFile fs) = false := by
    rw [List.any_append, h2]
    simp [isFile_of_get?_none fs path h3]
  unfold MkdirAll
  by_cases hm : env.mkdirAllFails path = true
  · simp [hm]
  · simp [hm, hany]

theorem createLogDirLoop_first_free (env : Env) (fs : FS) (base : Str) (n : Nat)
    (hfree : Stat env fs (dirName base n) = StatResult.notExist) :
    ∀ fuel num : Nat, num ≤ n → n - num < fuel →
      (∀ m, num ≤ m → m < n → Stat env fs (dirName base m) ≠ StatResult.notExist) →
      createLogDirLoop env fs base fuel num
        = some (dirName base n, MkdirAll env fs (dirName base n)) := by
  intro fuel
  induction fuel with
  | zero => intro num _ h; omega
  | succ f ih =>
    intro num hle hlt hbusy
    by_cases hnum : num = n
    · subst hnum
      simp [createLogDirLoop, hfree]
    · have hb := hbusy num (le_refl _) (by omega)
      simp only [createLogDirLoop, hb, if_false]
      exact ih (num + 1) (by omega) (by omega) (fun m h1 h2 => hbusy m (by omega) h2)

theorem exists_first_free_dirName (env : Env) (fs : FS) (base : Str)
    (h : ∃ k, 1 ≤ k ∧ Stat env fs (dirName base k) = StatResult.notExist) :
    ∃ n, 1 ≤ n ∧ Stat env fs (dirName base n) = StatResult.notExist ∧
      ∀ m, 1 ≤ m → m < n → Stat env fs (dirName base m) ≠ StatResult.notExist := by
  classical
  refine ⟨Nat.find h, (Nat.find_spec h).1, (Nat.find_spec h).2, ?_⟩
  intro m hm hlt hnone
  exact Nat.find_min h hlt ⟨hm, hnone⟩

theorem createLogDir_of_first_free (env : Env) (fs : FS) (n : Nat) (hn : 1 ≤ n)
    (hfree : Stat env fs (dirName (baseDir env) n) = StatResult.notExist)
    (hbusy : ∀ m, 1 ≤ m → m < n →
      Stat env fs (dirName (baseDir env) m) ≠ StatResult.notExist)
    (fuel : Nat) (hfuel : n ≤ fuel) :
    createLogDir env fuel fs
      = some (dirName (baseDir env) n, MkdirAll env fs (dirName (baseDir env) n)) :=
  createLogDirLoop_first_free env fs (baseDir env) n hfree fuel 1 hn (by omega) hbusy

theorem createLogDirLoop_result (env : Env) (fs : FS) (base : Str) :
    ∀ (fuel num : Nat) (res : Str × Bool × FS),
      createLogDirLoop env fs base fuel num = some res →
      ∃ n, num ≤ n ∧ n < num + fuel ∧
        res = (dirName base n, MkdirAll env fs (dirName base n)) ∧
        Stat env fs (dirName base n) = StatResult.notExist ∧
        ∀ m, num ≤ m → m < n → Stat env fs (dirName base m) ≠ StatResult.notExist := by
  intro fuel
  induction fuel with
  | zero => intro num res h; simp [createLogDirLoop] at h
  | succ f ih =>
    intro num res h
    simp only [createLogDirLoop] at h
    by_cases hfree : Stat env fs (dirName base num) = StatResult.notExist
    · simp only [hfree, if_true, Option.some.injEq] at h
      exact ⟨num, le_refl _, by omega, h.symm, hfree, fun m h1 h2 => by omega⟩
    · simp only [hfree, if_false] at h
      obtain ⟨n, hn, hlt, hres, hnone, hbusy⟩ := ih (num + 1) res h
      refine ⟨n, by omega, by omega, hres, hnone, ?_⟩
      intro m h1 h2
      by_cases hm : m = num
      · subst hm; exact hfree
      · exact hbusy m (by omega) h2

theorem createLogDirLoop_never (env : Env) (fs : FS) (base : Str)
    (h : ∀ n, Stat env fs (dirName base n) ≠ StatResult.notExist) :
    ∀ fuel num : Nat, createLogDirLoop env fs base fuel num = none := by
  intro fuel
  induction fuel with
  | zero => intro num; rfl
  | succ f ih =>
    intro num
    simp only [createLogDirLoop, h num, if_false]
    exact ih (num + 1)

/-- C3 (amended): whenever `os.Stat` reports some candidate
`dirName (baseDir env) k`, `k ≥ 1`, as not existing, `createLogDir` returns
(with any fuel of at least `n`) the candidate of the least sequence number
`n ≥ 1` that `os.Stat` reports as not existing: that path was absent before the
call, and no candidate of a smaller number was reported as not existing (it
existed or could not be examined). -/
theorem createLogDir_returns_first_free (env : Env) (fs : FS)
    (h : ∃ k, 1 ≤ k ∧ Stat env fs (dirName (baseDir env) k) = StatResult.notExist) :
    ∃ n, 1 ≤ n ∧
      (∀ fuel, n ≤ fuel → ∃ err fs1,
        createLogDir env fuel fs = some (dirName (baseDir env) n, err, fs1)) ∧
      Stat env fs (dirName (baseDir env) n) = StatResult.notExist ∧
      GoMap.get? fs (dirName (baseDir env) n) = none ∧
      ∀ m, 1 ≤ m → m < n →
        Stat env fs (dirName (baseDir env) m) ≠ StatResult.notExist := by
  obtain ⟨n, hn, hfree, hbusy⟩ := exists_first_free_dirName env fs (baseDir env) h
  refine ⟨n, hn, ?_, hfree, ((Stat_notExist_iff env fs _).1 hfree).2.2, hbusy⟩
  intro fuel hfuel
  exact ⟨_, _, createLogDir_of_first_free env fs n hn hfree hbusy fuel hfuel⟩

theorem createLogDir_returns_first_free_witness :
    (∃ k, 1 ≤ k ∧ Stat Env.plain
        ([("logs/20240115-090503-001".toList, Node.dir)] : FS)
        (dirName (baseDir Env.plain) k) = StatResult.notExist) ∧
    ∃ n, 1 ≤ n ∧
      (∀ fuel, n ≤ fuel → ∃ err fs1,
        createLogDir Env.plain fuel [("logs/20240115-090503-001".toList, Node.dir)]
          = some (dirName (baseDir Env.plain) n, err, fs1)) ∧
      Stat Env.plain ([("logs/20240115-090503-001".toList, Node.dir)] : FS)
        (dirName (baseDir Env.plain) n) = StatResult.notExist ∧
      GoMap.get? ([("logs/20240115-090503-001".toList, Node.dir)] : FS)
        (dirName (baseDir Env.plain) n) = none ∧
      ∀ m, 1 ≤ m → m < n → Stat Env.plain
        ([("logs/20240115-090503-001".toList, Node.dir)] : FS)
        (dirName (baseDir Env.plain) m) ≠ StatResult.notExist :=
  ⟨⟨2, by decide, by decide⟩,
    createLogDir_returns_first_free Env.plain [("logs/20240115-090503-001".toList, Node.dir)]
      ⟨2, by decide, by decide⟩⟩

theorem dirName_underFile (k : Nat) :
    dirName (baseDir Env.underFile) k
      = 'f' :: '/' :: ("sub/20240115-090503".toList ++ '-' :: zeroPad 3 k) := by
  have hb : baseDir Env.underFile = "f/sub/20240115-090503".toList := by decide
  rw [dirName, hb]
  rfl

/-- C3, counterexample: with the log directory `f/sub` below the regular file
`f`, no candidate `f/sub/20240115-090503-<seq>` exists, yet `os.Stat` fails on
each of them with an error that is not a not-exist error, and `createLogDir`
does not return, whatever the fuel. -/
theorem createLogDir_never_returns_under_file :
    (∀ k, GoMap.get? fileFS (dirName (baseDir Env.underFile) k) = none) ∧
    (∀ k, Stat Env.underFile fileFS (dirName (baseDir Env.underFile) k)
      = StatResult.otherError) ∧
    (∀ fuel, createLogDir Env.underFile fuel fileFS = none) := by
  have hstat : ∀ k, Stat Env.underFile fileFS (dirName (baseDir Env.underFile) k)
      = StatResult.otherError := by
    intro k
    rw [dirName_underFile]
    simp [Stat, ancestors, ancestorsAux, isFile, fileFS, GoMap.get?, Env.underFile, Env.plain]
  refine ⟨?_, hstat, ?_⟩
  · intro k
    rw [dirName_underFile]
    simp [fileFS, GoMap.get?]
  · intro fuel
    exact createLogDirLoop_never Env.underFile fileFS _
      (fun n hn => by rw [hstat n] at hn; cases hn) fuel 1

/-! ## Paths -/

theorem splitChar_ne_nil (sep : Char) (s : Str) : splitChar sep s ≠ [] := by
  cases s with
  | nil => simp [splitChar]
  | cons c cs =>
    simp only [splitChar]
    split
    · simp
    · split <;> simp

theorem splitChar_of_not_mem (sep : Char) (s : Str) (h : sep ∉ s) : splitChar sep s = [s] := by
  induction s with
  | nil => rfl
  | cons c cs ih =>
    have hc : c ≠ sep := fun hc => h (by simp [hc])
    have hcs : sep ∉ cs := fun hm => h (List.mem_cons_of_mem _ hm)
    simp [splitChar, hc, ih hcs]

theorem splitChar_append_sep (sep : Char) (a b : Str) :
    splitChar sep (a ++ sep :: b) = splitChar sep a ++ splitChar sep b := by
  induction a with
  | nil => simp [splitChar]
  | cons c cs ih =>
    by_cases hc : c = sep
    · simp [splitChar, hc, ih]
    · simp only [List.cons_append, splitChar, hc, if_false, List.append_eq]
      rw [ih]
      cases hs : splitChar sep cs with
      | nil => exact absurd hs (splitChar_ne_nil sep cs)
      | cons x xs => simp

theorem cleanStep_plain (rooted : Bool) (out : List Str) (c : Str) (h : isPlainName c) :
    cleanStep rooted out c = c :: out := by
  obtain ⟨h1, h2, h3, _⟩ := h
  simp [cleanStep, h1, h2, h3]

theorem intercalate_cons_cons (y z : Str) (rest : List Str) :
    List.intercalate ['/'] (y :: z :: rest) = y ++ '/' :: List.intercalate ['/'] (z :: rest) := by
  simp [List.intercalate, List.intersperse]

theorem intercalate_snoc (l : List Str) (x : Str) :
    ∃ P : Str, List.intercalate ['/'] (l ++ [x]) = P ++ x ∧ (l = [] → P = []) ∧
      (l ≠ [] → ∃ Q, P = Q ++ ['/']) := by
  induction l with
  | nil => exact ⟨[], by simp [List.intercalate], fun _ => rfl, fun h => absurd rfl h⟩
  | cons y ys ih =>
    obtain ⟨P, hP, h1, h2⟩ := ih
    cases ys with
    | nil =>
      refine ⟨y ++ ['/'], ?_, fun h => by simp at h, fun _ => ⟨y, rfl⟩⟩
      simp [List.intercalate, List.intersperse]
    | cons z zs =>
      obtain ⟨Q, hQ⟩ := h2 (by simp)
      refine ⟨y ++ '/' :: P, ?_, fun h => by simp at h, fun _ => ⟨y ++ '/' :: Q, by simp [hQ]⟩⟩
      rw [List.cons_append, List.cons_append, intercalate_cons_cons, ← List.cons_append, hP]
      simp

theorem Clean_append_name (a name : Str) (h : isPlainName name) :
    ∃ P : Str, Clean (a ++ '/' :: name) = P ++ name ∧ (P = [] ∨ ∃ Q, P = Q ++ ['/']) := by
  have hsplit : splitChar '/' (a ++ '/' :: name) = splitChar '/' a ++ [name] := by
    rw [splitChar_append_sep, splitChar_of_not_mem _ _ h.2.2.2]
  have hne : a ++ '/' :: name ≠ [] := by simp
  simp only [Clean, hne, if_false, hsplit, List.foldl_append, List.foldl_cons, List.foldl_nil,
    cleanStep_plain _ _ _ h, List.reverse_cons]
  obtain ⟨P, hP, _, h2⟩ := intercalate_snoc
    (List.foldl (cleanStep (decide ((a ++ '/' :: name).head? = some '/'))) [] (splitChar '/' a)).reverse
    name
  split
  · by_cases hl : (List.foldl (cleanStep (decide ((a ++ '/' :: name).head? = some '/'))) []
        (splitChar '/' a)).reverse = []
    · refine ⟨['/'], ?_, Or.inr ⟨[], rfl⟩⟩
      rw [hl]; simp [List.intercalate]
    · obtain ⟨Q, hQ⟩ := h2 hl
      exact ⟨'/' :: P, by rw [hP]; simp, Or.inr ⟨'/' :: Q, by simp [hQ]⟩⟩
  · simp only [List.cons_ne_nil, if_false]
    by_cases hl : (List.foldl (cleanStep (decide ((a ++ '/' :: name).head? = some '/'))) []
        (splitChar '/' a)).reverse = []
    · refine ⟨[], ?_, Or.inl rfl⟩
      rw [hl]; simp [List.intercalate]
    · exact ⟨P, hP, Or.inr (h2 hl)⟩

theorem Clean_name (name : Str) (h : isPlainName name) : Clean name = name := by
  have hhead : ¬ name.head? = some '/' := by
    intro hh
    cases name with
    | nil => simp at hh
    | cons c cs =>
      simp only [List.head?_cons, Option.some.injEq] at hh
      exact h.2.2.2 (by simp [hh])
  simp [Clean, h.1, splitChar_of_not_mem _ _ h.2.2.2, cleanStep_plain _ _ _ h, hhead,
    List.intercalate]

theorem Join_name (d name : Str) (h : isPlainName name) :
    ∃ P : Str, Join d name = P ++ name ∧ (P = [] ∨ ∃ Q, P = Q ++ ['/']) := by
  by_cases hd : d = []
  · refine ⟨[], ?_, Or.inl rfl⟩
    simp [Join, hd, h.1, Clean_name name h]
  · simp only [Join, ne_eq, hd, not_false_eq_true, if_true]
    exact Clean_append_name d name h

theorem lastSegment_append (P s : Str) (hs : '/' ∉ s) (hP : P = [] ∨ ∃ Q, P = Q ++ ['/']) :
    lastSegment (P ++ s) = s := by
  have hpos : ∀ a ∈ s.reverse, (fun c : Char => decide (c ≠ '/')) a = true := by
    intro a ha
    have : a ≠ '/' := fun h => hs (by rw [← h]; exact List.mem_reverse.1 ha)
    simpa using this
  rcases hP with rfl | ⟨Q, rfl⟩
  · simp only [lastSegment, List.nil_append]
    rw [(List.takeWhile_eq_self_iff).2 hpos, List.reverse_reverse]
  · simp only [lastSegment, List.reverse_append, List.reverse_cons, List.reverse_nil,
      List.nil_append, List.singleton_append, List.append_assoc]
    rw [List.takeWhile_append_of_pos hpos, List.takeWhile_cons_of_neg (by simp)]
    simp

theorem lastSegment_Join (d name : Str) (h : isPlainName name) :
    lastSegment (Join d name) = name := by
  obtain ⟨P, hP, hP2⟩ := Join_name d name h
  rw [hP]
  exact lastSegment_append P name h.2.2.2 hP2

/-! ## The shape of directory names -/

theorem GoMap.get?_eq_none {α : Type} (m : GoMap α) (k : Str) (h : k ∉ m.map Prod.fst) :
    GoMap.get? m k = none := by
  by_contra hcon
  exact h (GoMap.get?_mem_keys m k hcon)

theorem GoMap.get?_ne_none {α : Type} (m : GoMap α) (k : Str) (h : k ∈ m.map Prod.fst) :
    GoMap.get? m k ≠ none := by
  induction m with
  | nil => simp at h
  | cons e rest ih =>
    obtain ⟨k1, v1⟩ := e
    by_cases hk : k1 = k
    · simp [GoMap.get?, hk]
    · simp only [List.map_cons, List.mem_cons] at h
      rcases h with h | h
      · exact absurd h.symm hk
      · simp only [GoMap.get?, hk, if_false]
        exact ih h

theorem busyFS_get? (base : Str) (k n : Nat) :
    GoMap.get? (busyFS base k) (dirName base n) = none ↔ ¬ (1 ≤ n ∧ n ≤ k) := by
  constructor
  · intro h hn
    refine GoMap.get?_ne_none (busyFS base k) _ ?_ h
    simp only [busyFS, List.map_map, List.mem_map, List.mem_range]
    exact ⟨n - 1, by omega, by simp [show n - 1 + 1 = n by omega]⟩
  · intro hn
    apply GoMap.get?_eq_none
    simp only [busyFS, List.map_map, List.mem_map, List.mem_range, Function.comp]
    rintro ⟨i, hi, heq⟩
    have := dirName_injective base heq
    omega

theorem zeroPad_not_mem (w n : Nat) (c : Char) (hc : c.isDigit = false) : c ∉ zeroPad w n := by
  intro h
  rw [zeroPad_isDigit w n c h] at hc
  exact Bool.noConfusion hc

theorem Format_chars (t : Time) (c : Char) (h : c ∈ t.Format) : c.isDigit = true ∨ c = '-' := by
  simp only [Time.Format, List.mem_append, List.mem_cons] at h
  rcases h with ((h | h) | h) | h | (h | h) | h
  all_goals first
    | exact Or.inl (zeroPad_isDigit _ _ _ h)
    | exact Or.inr h

theorem Format_isPlainName (t : Time) : isPlainName t.Format := by
  have hmem : '-' ∈ t.Format := by simp [Time.Format]
  refine ⟨?_, ?_, ?_, ?_⟩
  · intro h; rw [h] at hmem; simp at hmem
  · intro h; rw [h] at hmem; simp at hmem
  · intro h; rw [h] at hmem; simp at hmem
  · intro h
    rcases Format_chars t _ h with h1 | h1
    · exact absurd h1 (by decide)
    · exact absurd h1 (by decide)

theorem digitsThen_append (d s : Str) (next : Str → Bool) (hd : ∀ c ∈ d, c.isDigit = true) :
    digitsThen d.length next (d ++ s) = next s := by
  induction d with
  | nil => simp [digitsThen]
  | cons c cs ih =>
    have hc := hd c (by simp)
    simp only [List.length_cons, List.cons_append, digitsThen, hc, Bool.true_and]
    exact ih (fun x hx => hd x (List.mem_cons_of_mem _ hx))

theorem digitsThen_of_digits (k : Nat) (z : Str) (next : Str → Bool)
    (hz : ∀ c ∈ z, c.isDigit = true) (hk : k ≤ z.length) :
    digitsThen k next z = next (z.drop k) := by
  have h1 : (z.take k).length = k := by simp [hk]
  have h2 := digitsThen_append (z.take k) (z.drop k) next
    (fun c hc => hz c (List.mem_of_mem_take hc))
  rwa [h1, List.take_append_drop] at h2

theorem Format_split (t : Time) (rest : Str) (next : Str → Bool) :
    digitsThen 8 (hyphenThen (digitsThen 6 next)) (t.Format ++ rest) = next rest := by
  obtain ⟨hy, _, hmo, _, hd, hh, hmi, hs⟩ := t.inRange
  have ly : (zeroPad 4 t.year).length = 4 := zeroPad_length 4 _ (by decide) (by norm_num; omega)
  have lmo : (zeroPad 2 t.month).length = 2 := zeroPad_length 2 _ (by decide) (by norm_num; omega)
  have ld : (zeroPad 2 t.day).length = 2 := zeroPad_length 2 _ (by decide) (by norm_num; omega)
  have lh : (zeroPad 2 t.hour).length = 2 := zeroPad_length 2 _ (by decide) (by norm_num; omega)
  have lmi : (zeroPad 2 t.minute).length = 2 :=
    zeroPad_length 2 _ (by decide) (by norm_num; omega)
  have ls : (zeroPad 2 t.second).length = 2 :=
    zeroPad_length 2 _ (by decide) (by norm_num; omega)
  have e8 : (zeroPad 4 t.year ++ zeroPad 2 t.month ++ zeroPad 2 t.day).length = 8 := by
    simp [ly, lmo, ld]
  have e6 : (zeroPad 2 t.hour ++ zeroPad 2 t.minute ++ zeroPad 2 t.second).length = 6 := by
    simp [lh, lmi, ls]
  have d8 : ∀ c ∈ zeroPad 4 t.year ++ zeroPad 2 t.month ++ zeroPad 2 t.day,
      c.isDigit = true := by
    intro c hc
    simp only [List.mem_append] at hc
    rcases hc with (h | h) | h <;> exact zeroPad_isDigit _ _ _ h
  have d6 : ∀ c ∈ zeroPad 2 t.hour ++ zeroPad 2 t.minute ++ zeroPad 2 t.second,
      c.isDigit = true := by
    intro c hc
    simp only [List.mem_append] at hc
    rcases hc with (h | h) | h <;> exact zeroPad_isDigit _ _ _ h
  have hform : t.Format ++ rest
      = (zeroPad 4 t.year ++ zeroPad 2 t.month ++ zeroPad 2 t.day) ++
        ('-' :: ((zeroPad 2 t.hour ++ zeroPad 2 t.minute ++ zeroPad 2 t.second) ++ rest)) := by
    simp [Time.Format]
  rw [hform]
  have h8 := digitsThen_append (zeroPad 4 t.year ++ zeroPad 2 t.month ++ zeroPad 2 t.day)
    ('-' :: ((zeroPad 2 t.hour ++ zeroPad 2 t.minute ++ zeroPad 2 t.second) ++ rest))
    (hyphenThen (digitsThen 6 next)) d8
  rw [e8] at h8
  rw [h8]
  have h6 := digitsThen_append (zeroPad 2 t.hour ++ zeroPad 2 t.minute ++ zeroPad 2 t.second)
    rest next d6
  rw [e6] at h6
  simp only [hyphenThen, beq_self_eq_true, Bool.true_and]
  exact h6

theorem lastSegment_dirName (env : Env) (n : Nat) :
    lastSegment (dirName (baseDir env) n) = env.now.Format ++ '-' :: zeroPad 3 n := by
  obtain ⟨P, hP, hP2⟩ := Join_name env.logDir env.now.Format (Format_isPlainName env.now)
  have hs : '/' ∉ env.now.Format ++ '-' :: zeroPad 3 n := by
    intro h
    rcases List.mem_append.1 h with h1 | h1
    · exact (Format_isPlainName env.now).2.2.2 h1
    · rcases List.mem_cons.1 h1 with h2 | h2
      · exact absurd h2 (by decide)
      · exact zeroPad_not_mem 3 n '/' (by decide) h2
  have : dirName (baseDir env) n = P ++ (env.now.Format ++ '-' :: zeroPad 3 n) := by
    simp [dirName, baseDir, hP]
  rw [this]
  exact lastSegment_append P _ hs hP2

theorem isFile_of_all_dir (fs : FS) (path : Str) (h : ∀ e ∈ fs, e.2 = Node.dir) :
    isFile fs path = false := by
  have hget : ∀ n, GoMap.get? fs path = some n → n = Node.dir := by
    induction fs with
    | nil => intro n hn; simp [GoMap.get?] at hn
    | cons e rest ih =>
      obtain ⟨k1, v1⟩ := e
      intro n hn
      simp only [GoMap.get?] at hn
      by_cases hk : k1 = path
      · simp only [hk, if_true, Option.some.injEq] at hn
        rw [← hn]
        exact h (k1, v1) (List.mem_cons_self _ _)
      · simp only [hk, if_false] at hn
        exact ih (fun e he => h e (List.mem_cons_of_mem _ he)) n hn
  unfold isFile
  cases hg : GoMap.get? fs path with
  | none => rfl
  | some n => rw [hget n hg]

theorem busyFS_Stat (base : Str) (k n : Nat) :
    Stat Env.plain (busyFS base k) (dirName base n) = StatResult.notExist
      ↔ ¬ (1 ≤ n ∧ n ≤ k) := by
  have hdir : ∀ e ∈ busyFS base k, e.2 = Node.dir := by
    intro e he
    simp only [busyFS, List.mem_map] at he
    obtain ⟨i, _, rfl⟩ := he
    rfl
  have hany : (ancestors (dirName base n)).any (isFile (busyFS base k)) = false := by
    rw [List.any_eq_false]
    intro x _
    simp [isFile_of_all_dir _ x hdir]
  rw [Stat_notExist_iff, busyFS_get?]
  constructor
  · exact fun h => h.2.2
  · exact fun h => ⟨rfl, hany, h⟩

/-- C8 (amended): when `createLogDir` returns a directory, the final segment of
its path is the time stamp (8 digits, a hyphen, 6 digits), a hyphen and the
sequence number `n` zero-padded to at least 3 digits, where `n ≥ 1` is the
least number whose candidate `os.Stat` reports as not existing; it matches
`\d{8}-\d{6}-\d{3,}` in full, and it matches `\d{8}-\d{6}-\d{3}` in full
exactly when `n ≤ 999`, that is exactly when at least one of the candidates
numbered 1 to 999 is reported as not existing. -/
theorem createLogDir_name_shape (env : Env) (fs : FS) (fuel : Nat) (dirLog : Str) (err : Bool)
    (fs1 : FS) (h : createLogDir env fuel fs = some (dirLog, err, fs1)) :
    ∃ n, 1 ≤ n ∧
      Stat env fs (dirName (baseDir env) n) = StatResult.notExist ∧
      (∀ m, 1 ≤ m → m < n →
        Stat env fs (dirName (baseDir env) m) ≠ StatResult.notExist) ∧
      lastSegment dirLog = env.now.Format ++ '-' :: zeroPad 3 n ∧
      matchesDirPatternWide (lastSegment dirLog) = true ∧
      (matchesDirPattern (lastSegment dirLog) = true ↔ n ≤ 999) ∧
      (matchesDirPattern (lastSegment dirLog) = true ↔
        ∃ m, 1 ≤ m ∧ m ≤ 999 ∧
          Stat env fs (dirName (baseDir env) m) = StatResult.notExist) := by
  obtain ⟨n, hn, _, hres, hfree, hbusy⟩ :=
    createLogDirLoop_result env fs (baseDir env) fuel 1 _ h
  have hdir : dirLog = dirName (baseDir env) n := (Prod.mk.inj hres).1
  have hz : ∀ c ∈ zeroPad 3 n, c.isDigit = true := zeroPad_isDigit 3 n
  have hlen := zeroPad_length_ge 3 n
  have hiff : matchesDirPattern (lastSegment dirLog) = true ↔ n ≤ 999 := by
    rw [hdir, lastSegment_dirName, matchesDirPattern, Format_split]
    simp only [hyphenThen, beq_self_eq_true, Bool.true_and]
    rw [digitsThen_of_digits 3 _ _ hz hlen]
    simp only [List.isEmpty_iff, List.drop_eq_nil_iff]
    constructor
    · intro hle
      by_contra hcon
      have := zeroPad_length_gt 3 n (by norm_num; omega)
      omega
    · intro hle
      rw [zeroPad_length 3 n (by decide) (by norm_num; omega)]
  refine ⟨n, hn, hfree, hbusy, by rw [hdir, lastSegment_dirName], ?_, hiff, ?_⟩
  · rw [hdir, lastSegment_dirName, matchesDirPatternWide, Format_split]
    simp only [hyphenThen, beq_self_eq_true, Bool.true_and]
    rw [digitsThen_of_digits 3 _ _ hz hlen]
    simp only [List.all_eq_true]
    exact fun c hc => hz c (List.mem_of_mem_drop hc)
  · rw [hiff]
    constructor
    · exact fun hle => ⟨n, hn, hle, hfree⟩
    · rintro ⟨m, hm1, hm2, hm3⟩
      by_contra hcon
      exact hbusy m hm1 (by omega) hm3

theorem createLogDir_name_shape_witness :
    createLogDir Env.plain 1 [] = some ("logs/20240115-090503-001".toList, false,
      [("logs".toList, Node.dir), ("logs/20240115-090503-001".toList, Node.dir)]) ∧
    ∃ n, 1 ≤ n ∧
      Stat Env.plain [] (dirName (baseDir Env.plain) n) = StatResult.notExist ∧
      (∀ m, 1 ≤ m → m < n →
        Stat Env.plain [] (dirName (baseDir Env.plain) m) ≠ StatResult.notExist) ∧
      lastSegment "logs/20240115-090503-001".toList
        = Env.plain.now.Format ++ '-' :: zeroPad 3 n ∧
      matchesDirPatternWide (lastSegment "logs/20240115-090503-001".toList) = true ∧
      (matchesDirPattern (lastSegment "logs/20240115-090503-001".toList) = true ↔ n ≤ 999) ∧
      (matchesDirPattern (lastSegment "logs/20240115-090503-001".toList) = true ↔
        ∃ m, 1 ≤ m ∧ m ≤ 999 ∧
          Stat Env.plain [] (dirName (baseDir Env.plain) m) = StatResult.notExist) :=
  ⟨by decide,
    createLogDir_name_shape Env.plain [] 1 "logs/20240115-090503-001".toList false
      [("logs".toList, Node.dir), ("logs/20240115-090503-001".toList, Node.dir)] (by decide)⟩

/-- C8, counterexample: when the directories numbered 001 to 999 of the current
time stamp exist, `createLogDir` allocates `logs/20240115-090503-1000`, whose
final segment ends in four digits and does not match `\d{8}-\d{6}-\d{3}`. -/
theorem createLogDir_fourth_digit :
    createLogDir Env.plain 1000 (busyFS (baseDir Env.plain) 999)
      = some ("logs/20240115-090503-1000".toList,
          MkdirAll Env.plain (busyFS (baseDir Env.plain) 999) "logs/20240115-090503-1000".toList) ∧
    lastSegment "logs/20240115-090503-1000".toList = "20240115-090503-1000".toList ∧
    matchesDirPattern (lastSegment "logs/20240115-090503-1000".toList) = false := by
  refine ⟨?_, by decide, by decide⟩
  have h := createLogDir_of_first_free Env.plain (busyFS (baseDir Env.plain) 999) 1000
    (by decide) ((busyFS_Stat _ 999 1000).2 (by omega))
    (fun m h1 h2 hnone => ((busyFS_Stat _ 999 m).1 hnone) ⟨h1, by omega⟩) 1000 (le_refl _)
  have hname : dirName (baseDir Env.plain) 1000 = "logs/20240115-090503-1000".toList := by
    decide
  rw [hname] at h
  exact h

/-! ## Responses -/

theorem corsHeaders_status : (corsHeaders ResponseWriter.new).status = none := rfl

theorem corsHeaders_body : (corsHeaders ResponseWriter.new).body = [] := rfl

theorem httpError_status (w : ResponseWriter) (msg : Str) (code : Nat) (hw : w.status = none) :
    (httpError w msg code).status = some code := by
  simp [httpError, ResponseWriter.Write, ResponseWriter.WriteHeader, ResponseWriter.Set, hw]

theorem httpError_body (w : ResponseWriter) (msg : Str) (code : Nat) (hw : w.status = none)
    (hb : w.body = []) : (httpError w msg code).body = msg ++ ['\n'] := by
  simp [httpError, ResponseWriter.Write, ResponseWriter.WriteHeader, ResponseWriter.Set, hw, hb]

theorem httpError_contentType (w : ResponseWriter) (msg : Str) (code : Nat)
    (hw : w.status = none) :
    GoMap.get? (httpError w msg code).header "Content-Type".toList
      = some "text/plain; charset=utf-8".toList := by
  simp only [httpError, ResponseWriter.Write, ResponseWriter.WriteHeader, ResponseWriter.Set, hw]
  rw [GoMap.get?_set_other _ _ _ _ (by decide), GoMap.get?_set_self]

theorem success_status (w : ResponseWriter) (data : Str) (hw : w.status = none) :
    (((w.Set "Content-Type".toList "application/json; charset=utf-8".toList).WriteHeader
      200).Write data).status = some 200 := by
  simp [ResponseWriter.Write, ResponseWriter.WriteHeader, ResponseWriter.Set, hw]

theorem success_body (w : ResponseWriter) (data : Str) (hw : w.status = none)
    (hb : w.body = []) :
    (((w.Set "Content-Type".toList "application/json; charset=utf-8".toList).WriteHeader
      200).Write data).body = data := by
  simp [ResponseWriter.Write, ResponseWriter.WriteHeader, ResponseWriter.Set, hw, hb]

theorem errorText_ne_successJSON (env : Env) (dirLog msg : Str) (hmsg : msg ∈ errorTexts) :
    msg ++ ['\n'] ≠ successJSON env dirLog := by
  intro h
  have h2 := congrArg List.head? h
  simp only [errorTexts, List.mem_cons, List.mem_singleton, List.not_mem_nil, or_false] at hmsg
  rcases hmsg with rfl | rfl | rfl | rfl | rfl <;>
    · simp only [successJSON, List.cons_append, List.head?_cons] at h2
      revert h2
      decide

/-- C9: for a request whose method is `OPTIONS`, whatever its other fields, the
handler returns with status 200, an empty body and the three CORS headers set
to their values, and it leaves the file system unchanged and writes no file. -/
theorem handler_options (env : Env) (fuel : Nat) (fs : FS) (r : Request)
    (h : r.Method = "OPTIONS".toList) :
    ∃ res, handler env fuel fs r = some res ∧
      res.w.status = some 200 ∧ res.w.body = [] ∧
      GoMap.get? res.w.header "Access-Control-Allow-Origin".toList = some "*".toList ∧
      GoMap.get? res.w.header "Access-Control-Allow-Methods".toList
        = some "GET, POST, PUT, DELETE, OPTIONS".toList ∧
      GoMap.get? res.w.header "Access-Control-Allow-Headers".toList
        = some "Content-Type, Authorization, X-Requested-With".toList ∧
      res.fs = fs ∧ res.written = [] := by
  refine ⟨{ w := (corsHeaders ResponseWriter.new).WriteHeader 200, fs := fs, written := [] },
    by simp only [handler, h, if_true], ?_, ?_, ?_, ?_, ?_, rfl, rfl⟩ <;>
    (dsimp only; decide)

theorem handler_options_witness :
    ({ Method := "OPTIONS".toList, RequestURI := "/api/test".toList,
       URL := { RawQuery := [], String := "/api/test".toList }, Header := [],
       Body := some { pending := "x".toList, failing := true } } : Request).Method
      = "OPTIONS".toList ∧
    ∃ res, handler Env.plain 0 [("keep".toList, Node.dir)]
        { Method := "OPTIONS".toList, RequestURI := "/api/test".toList,
          URL := { RawQuery := [], String := "/api/test".toList }, Header := [],
          Body := some { pending := "x".toList, failing := true } } = some res ∧
      res.w.status = some 200 ∧ res.w.body = [] ∧
      GoMap.get? res.w.header "Access-Control-Allow-Origin".toList = some "*".toList ∧
      GoMap.get? res.w.header "Access-Control-Allow-Methods".toList
        = some "GET, POST, PUT, DELETE, OPTIONS".toList ∧
      GoMap.get? res.w.header "Access-Control-Allow-Headers".toList
        = some "Content-Type, Authorization, X-Requested-With".toList ∧
      res.fs = [("keep".toList, Node.dir)] ∧ res.written = [] :=
  ⟨rfl, handler_options Env.plain 0 [("keep".toList, Node.dir)] _ rfl⟩

/-! ## The write path of `handler` -/

theorem readBody_bytes (r : Request) : (readBody r).1 = bodyBytes r := by
  unfold readBody bodyBytes; cases r.Body <;> rfl

theorem readBody_request (r : Request) : (readBody r).2.2 = drained r := by
  obtain ⟨m, u, url, h, b⟩ := r
  cases b <;> rfl

theorem readBody_fails (r : Request) :
    (readBody r).2.1 = false ↔ ∀ rd, r.Body = some rd → rd.failing = false := by
  unfold readBody
  cases h : r.Body with
  | none => simp
  | some rd => simp [Reader.ReadAll]

theorem WriteFile_fst (env : Env) (fs : FS) (path data : Str) :
    (WriteFile env fs path data).1 = env.writeFileFails path data := by
  unfold WriteFile
  split <;> simp_all

theorem WriteFile_snd (env : Env) (fs : FS) (path data : Str)
    (h : env.writeFileFails path data = false) :
    (WriteFile env fs path data).2 = GoMap.set fs path (Node.file data) := by
  simp [WriteFile, h]

theorem length_pos_iff_ne_nil (body : Str) : body.length > 0 ↔ body ≠ [] := by
  cases body <;> simp

theorem handler_of_createLogDir (env : Env) (fuel : Nat) (fs : FS) (r : Request)
    (dirLog : Str) (err : Bool) (fs1 : FS) (hm : r.Method ≠ "OPTIONS".toList)
    (hc : createLogDir env fuel fs = some (dirLog, err, fs1)) :
    handler env fuel fs r = some
      (if err then
        { w := httpError (corsHeaders ResponseWriter.new) "ディレクトリ作成に失敗しました".toList 500,
          fs := fs1, written := [] }
      else if (readBody r).2.1 then
        { w := httpError (corsHeaders ResponseWriter.new)
            "リクエストボディの読み取りに失敗しました".toList 500,
          fs := fs1, written := [] }
      else persist env (corsHeaders ResponseWriter.new) fs1 dirLog (readBody r).2.2 (readBody r).1) := by
  simp only [handler, hm, if_false, hc]
  split <;> [rfl; (split <;> rfl)]

/-- The part of `stepsSucceed` that concerns lines 127 to 145. -/
theorem persist_outcome (env : Env) (fs : FS) (dirLog : Str) (r : Request) (body : Str) :
    ((∃ logData, env.marshalIndent (buildRecord env r body) = some logData ∧
        env.writeFileFails (Join dirLog "log.txt".toList) logData = false ∧
        (body ≠ [] → env.writeFileFails (Join dirLog "data.txt".toList) body = false)) →
      (persist env (corsHeaders ResponseWriter.new) fs dirLog r body).w.status = some 200 ∧
      (persist env (corsHeaders ResponseWriter.new) fs dirLog r body).w.body
        = successJSON env dirLog) ∧
    (¬ (∃ logData, env.marshalIndent (buildRecord env r body) = some logData ∧
        env.writeFileFails (Join dirLog "log.txt".toList) logData = false ∧
        (body ≠ [] → env.writeFileFails (Join dirLog "data.txt".toList) body = false)) →
      (persist env (corsHeaders ResponseWriter.new) fs dirLog r body).w.status = some 500 ∧
      (∃ msg ∈ errorTexts,
        (persist env (corsHeaders ResponseWriter.new) fs dirLog r body).w.body = msg ++ ['\n']) ∧
      GoMap.get? (persist env (corsHeaders ResponseWriter.new) fs dirLog r body).w.header
        "Content-Type".toList = some "text/plain; charset=utf-8".toList) := by
  have hs := corsHeaders_status
  have hb := corsHeaders_body
  cases hmar : env.marshalIndent (buildRecord env r body) with
  | none =>
    refine ⟨fun ⟨l, hl, _⟩ => by simp at hl, fun _ => ?_⟩
    simp only [persist, hmar]
    exact ⟨httpError_status _ _ _ hs, ⟨_, by simp [errorTexts], httpError_body _ _ _ hs hb⟩,
      httpError_contentType _ _ _ hs⟩
  | some logData =>
    by_cases hlog : env.writeFileFails (Join dirLog "log.txt".toList) logData = true
    · refine ⟨fun ⟨l, hl, hw, _⟩ => ?_, fun _ => ?_⟩
      · simp only [Option.some.injEq] at hl
        subst hl
        rw [hlog] at hw
        exact Bool.noConfusion hw
      · simp only [persist, hmar, WriteFile_fst, hlog, if_true]
        exact ⟨httpError_status _ _ _ hs, ⟨_, by simp [errorTexts], httpError_body _ _ _ hs hb⟩,
          httpError_contentType _ _ _ hs⟩
    · have hlog2 : env.writeFileFails (Join dirLog "log.txt".toList) logData = false := by
        simpa using hlog
      by_cases hbody : body = []
      · have hlen : ¬ body.length > 0 := by simp [hbody]
        refine ⟨fun _ => ?_, fun hn => absurd ⟨logData, rfl, hlog2, fun h => absurd hbody h⟩ hn⟩
        simp only [persist, hmar, WriteFile_fst, hlog2, if_false, hlen, Bool.false_eq_true]
        exact ⟨success_status _ _ hs, success_body _ _ hs hb⟩
      · have hlen : body.length > 0 := (length_pos_iff_ne_nil body).2 hbody
        by_cases hdata : env.writeFileFails (Join dirLog "data.txt".toList) body = true
        · refine ⟨fun ⟨l, _, _, hw⟩ => ?_, fun _ => ?_⟩
          · rw [hw hbody] at hdata
            exact Bool.noConfusion hdata
          · simp only [persist, hmar, WriteFile_fst, hlog2, if_false, hlen, if_true, hdata,
              Bool.false_eq_true]
            exact ⟨httpError_status _ _ _ hs,
              ⟨_, by simp [errorTexts], httpError_body _ _ _ hs hb⟩,
              httpError_contentType _ _ _ hs⟩
        · have hdata2 : env.writeFileFails (Join dirLog "data.txt".toList) body = false := by
            simpa using hdata
          refine ⟨fun _ => ?_, fun hn => absurd ⟨logData, rfl, hlog2, fun _ => hdata2⟩ hn⟩
          simp only [persist, hmar, WriteFile_fst, hlog2, if_false, hlen, if_true, hdata2,
            Bool.false_eq_true]
          exact ⟨success_status _ _ hs, success_body _ _ hs hb⟩

theorem success_contentType (w : ResponseWriter) (data : Str) (hw : w.status = none) :
    GoMap.get? (((w.Set "Content-Type".toList "application/json; charset=utf-8".toList).WriteHeader
      200).Write data).header "Content-Type".toList
      = some "application/json; charset=utf-8".toList := by
  simp only [ResponseWriter.Write, ResponseWriter.WriteHeader, ResponseWriter.Set, hw]
  exact GoMap.get?_set_self _ _ _

theorem persist_contentType (env : Env) (fs : FS) (dirLog : Str) (r : Request) (body : Str)
    (hok : (persist env (corsHeaders ResponseWriter.new) fs dirLog r body).w.status
      = some 200) :
    GoMap.get? (persist env (corsHeaders ResponseWriter.new) fs dirLog r body).w.header
      "Content-Type".toList = some "application/json; charset=utf-8".toList := by
  have hs := corsHeaders_status
  by_cases hsteps : ∃ logData, env.marshalIndent (buildRecord env r body) = some logData ∧
      env.writeFileFails (Join dirLog "log.txt".toList) logData = false ∧
      (body ≠ [] → env.writeFileFails (Join dirLog "data.txt".toList) body = false)
  · obtain ⟨logData, hmar, hlog, hdata⟩ := hsteps
    simp only [persist, hmar, WriteFile_fst, hlog, if_false, Bool.false_eq_true]
    by_cases hbody : body = []
    · have hlen : ¬ body.length > 0 := by simp [hbody]
      simp only [hlen, if_false]
      exact success_contentType _ _ hs
    · have hlen : body.length > 0 := (length_pos_iff_ne_nil body).2 hbody
      simp only [hlen, if_true, hdata hbody, if_false, Bool.false_eq_true]
      exact success_contentType _ _ hs
  · rw [((persist_outcome env fs dirLog r body).2 hsteps).1] at hok
    simp at hok

theorem successJSON_eq (env : Env) (dirLog : Str) :
    successJSON env dirLog
      = Char.ofNat 123 :: dq :: ("logDir".toList ++ dq :: ':' :: (env.jsonString dirLog ++
          ',' :: dq :: ("message".toList ++ dq :: ':' :: dq :: ("ログが保存されました".toList ++
          dq :: ',' :: dq :: ("status".toList ++ dq :: ':' :: dq :: ("success".toList ++
          [dq, Char.ofNat 125])))))) := by
  simp only [successJSON, List.append_assoc, List.cons_append, List.nil_append]

theorem handler_outcome (env : Env) (fuel : Nat) (fs : FS) (r : Request)
    (dirLog : Str) (fs1 : FS) (hm : r.Method ≠ "OPTIONS".toList)
    (hc : createLogDir env fuel fs = some (dirLog, env.mkdirAllFails dirLog, fs1)) :
    ∃ res, handler env fuel fs r = some res ∧
      (stepsSucceed env dirLog r →
        res.w.status = some 200 ∧ res.w.body = successJSON env dirLog ∧
        GoMap.get? res.w.header "Content-Type".toList
          = some "application/json; charset=utf-8".toList) ∧
      (¬ stepsSucceed env dirLog r →
        res.w.status = some 500 ∧ (∃ msg ∈ errorTexts, res.w.body = msg ++ ['\n']) ∧
        GoMap.get? res.w.header "Content-Type".toList
          = some "text/plain; charset=utf-8".toList) := by
  have hs := corsHeaders_status
  have hb := corsHeaders_body
  refine ⟨_, handler_of_createLogDir env fuel fs r dirLog _ fs1 hm hc, ?_, ?_⟩
  · rintro ⟨h1, h2, h3⟩
    have h2f : (readBody r).2.1 = false := (readBody_fails r).2 h2
    simp only [h1, h2f, if_false, Bool.false_eq_true, readBody_bytes, readBody_request]
    have hp := (persist_outcome env fs1 dirLog (drained r) (bodyBytes r)).1 h3
    exact ⟨hp.1, hp.2, persist_contentType env fs1 dirLog _ _ hp.1⟩
  · intro hn
    by_cases h1 : env.mkdirAllFails dirLog = true
    · simp only [h1, if_true]
      exact ⟨httpError_status _ _ _ hs, ⟨_, by simp [errorTexts], httpError_body _ _ _ hs hb⟩,
        httpError_contentType _ _ _ hs⟩
    · have h1f : env.mkdirAllFails dirLog = false := by simpa using h1
      by_cases h2 : (readBody r).2.1 = true
      · simp only [h1f, h2, if_true, if_false, Bool.false_eq_true]
        exact ⟨httpError_status _ _ _ hs, ⟨_, by simp [errorTexts], httpError_body _ _ _ hs hb⟩,
          httpError_contentType _ _ _ hs⟩
      · have h2f : (readBody r).2.1 = false := by simpa using h2
        simp only [h1f, h2f, if_false, Bool.false_eq_true, readBody_bytes, readBody_request]
        exact (persist_outcome env fs1 dirLog _ _).2
          (fun h3 => hn ⟨h1f, (readBody_fails r).1 h2f, h3⟩)

/-- C4: for every request whose method is not `OPTIONS`, every file system and
every environment (every outcome of the directory creation, the body read, the
serialisation and the two writes): whenever the handler returns, it has
allocated the directory of the least sequence number `n` that `os.Stat`
reports as not existing, and its answer is status 200 with the JSON object
of `logDir`, `message` and `status` `success` (content type
`application/json`) if and only if every step it performs succeeds; when a
step fails the status is 500, the body is one of the plain-text error messages
followed by a newline, the content type is `text/plain`, and the body is no
JSON object.  The handler returns as soon as the directory search does: with
any fuel of at least `k` when `os.Stat` reports candidate `k` as not existing. -/
theorem handler_success_iff_steps (env : Env) (fs : FS) (r : Request)
    (hm : r.Method ≠ "OPTIONS".toList) :
    (∀ fuel res, handler env fuel fs r = some res →
      ∃ n, 1 ≤ n ∧ Stat env fs (dirName (baseDir env) n) = StatResult.notExist ∧
        (∀ m, 1 ≤ m → m < n →
          Stat env fs (dirName (baseDir env) m) ≠ StatResult.notExist) ∧
        ((res.w.status = some 200 ∧
          res.w.body = Char.ofNat 123 :: dq :: ("logDir".toList ++ dq :: ':' ::
            (env.jsonString (dirName (baseDir env) n) ++
            ',' :: dq :: ("message".toList ++ dq :: ':' :: dq ::
            ("ログが保存されました".toList ++
            dq :: ',' :: dq :: ("status".toList ++ dq :: ':' :: dq :: ("success".toList ++
            [dq, Char.ofNat 125])))))) ∧
          GoMap.get? res.w.header "Content-Type".toList
            = some "application/json; charset=utf-8".toList)
          ↔ stepsSucceed env (dirName (baseDir env) n) r) ∧
        (¬ stepsSucceed env (dirName (baseDir env) n) r →
          res.w.status = some 500 ∧ (∃ msg ∈ errorTexts, res.w.body = msg ++ ['\n']) ∧
          GoMap.get? res.w.header "Content-Type".toList
            = some "text/plain; charset=utf-8".toList ∧
          res.w.body.head? ≠ some (Char.ofNat 123))) ∧
    (∀ k, 1 ≤ k → Stat env fs (dirName (baseDir env) k) = StatResult.notExist →
      ∀ fuel, k ≤ fuel → ∃ res, handler env fuel fs r = some res) := by
  constructor
  · intro fuel res hres
    cases hc : createLogDir env fuel fs with
    | none =>
      rw [show handler env fuel fs r = none from by simp only [handler, hm, if_false, hc]] at hres
      cases hres
    | some x =>
      obtain ⟨n, hn, _, hx, hfree, hbusy⟩ :=
        createLogDirLoop_result env fs (baseDir env) fuel 1 x hc
      have hc2 : createLogDir env fuel fs = some (dirName (baseDir env) n,
          env.mkdirAllFails (dirName (baseDir env) n),
          (MkdirAll env fs (dirName (baseDir env) n)).2) := by
        rw [hc, hx, MkdirAll_of_notExist env fs _ hfree]
      obtain ⟨res2, hres2, hok, hfail⟩ := handler_outcome env fuel fs r _ _ hm hc2
      have hre : res2 = res := Option.some.inj (hres2.symm.trans hres)
      subst hre
      refine ⟨n, hn, hfree, hbusy, ⟨?_, ?_⟩, ?_⟩
      · rintro ⟨hst, _, _⟩
        by_contra hn2
        rw [(hfail hn2).1] at hst
        simp at hst
      · intro hsteps
        obtain ⟨h1, h2, h3⟩ := hok hsteps
        exact ⟨h1, by rw [h2, successJSON_eq], h3⟩
      · intro hn2
        obtain ⟨h500, ⟨msg, hmsg, hbody⟩, hct⟩ := hfail hn2
        refine ⟨h500, ⟨msg, hmsg, hbody⟩, hct, ?_⟩
        rw [hbody]
        simp only [errorTexts, List.mem_cons, List.mem_singleton, List.not_mem_nil,
          or_false] at hmsg
        rcases hmsg with rfl | rfl | rfl | rfl | rfl <;> decide
  · intro k hk hfreek fuel hfuel
    obtain ⟨n, hn, hfree, hbusy⟩ :=
      exists_first_free_dirName env fs (baseDir env) ⟨k, hk, hfreek⟩
    have hnk : n ≤ k := by
      by_contra hcon
      exact hbusy k hk (by omega) hfreek
    have hc := createLogDir_of_first_free env fs n hn hfree hbusy fuel (by omega)
    exact ⟨_, handler_of_createLogDir env fuel fs r _ _ _ hm hc⟩

theorem handler_success_iff_steps_witness :
    failingBodyRequest.Method ≠ "OPTIONS".toList ∧
    handler Env.plain 1 [] failingBodyRequest = some failingBodyResult ∧
    failingBodyResult.w.status = some 500 ∧
    handler Env.plain 1 [] postFormRequest = some postFormResult ∧
    postFormResult.w.status = some 200 ∧
    ((∀ fuel res, handler Env.plain fuel [] failingBodyRequest = some res →
      ∃ n, 1 ≤ n ∧ Stat Env.plain [] (dirName (baseDir Env.plain) n) = StatResult.notExist ∧
        (∀ m, 1 ≤ m → m < n →
          Stat Env.plain [] (dirName (baseDir Env.plain) m) ≠ StatResult.notExist) ∧
        ((res.w.status = some 200 ∧
          res.w.body = Char.ofNat 123 :: dq :: ("logDir".toList ++ dq :: ':' ::
            (Env.plain.jsonString (dirName (baseDir Env.plain) n) ++
            ',' :: dq :: ("message".toList ++ dq :: ':' :: dq ::
            ("ログが保存されました".toList ++
            dq :: ',' :: dq :: ("status".toList ++ dq :: ':' :: dq :: ("success".toList ++
            [dq, Char.ofNat 125])))))) ∧
          GoMap.get? res.w.header "Content-Type".toList
            = some "application/json; charset=utf-8".toList)
          ↔ stepsSucceed Env.plain (dirName (baseDir Env.plain) n) failingBodyRequest) ∧
        (¬ stepsSucceed Env.plain (dirName (baseDir Env.plain) n) failingBodyRequest →
          res.w.status = some 500 ∧ (∃ msg ∈ errorTexts, res.w.body = msg ++ ['\n']) ∧
          GoMap.get? res.w.header "Content-Type".toList
            = some "text/plain; charset=utf-8".toList ∧
          res.w.body.head? ≠ some (Char.ofNat 123))) ∧
    (∀ k, 1 ≤ k → Stat Env.plain [] (dirName (baseDir Env.plain) k) = StatResult.notExist →
      ∀ fuel, k ≤ fuel → ∃ res, handler Env.plain fuel [] failingBodyRequest = some res)) :=
  ⟨by decide, by decide, by decide, by decide, by decide,
    handler_success_iff_steps Env.plain [] failingBodyRequest (by decide)⟩

/-! ## What a successful call has written -/

theorem readBody_Method (r : Request) : (readBody r).2.2.Method = r.Method := by
  unfold readBody; cases r.Body <;> rfl

theorem readBody_RequestURI (r : Request) : (readBody r).2.2.RequestURI = r.RequestURI := by
  unfold readBody; cases r.Body <;> rfl

theorem readBody_URL (r : Request) : (readBody r).2.2.URL = r.URL := by
  unfold readBody; cases r.Body <;> rfl

theorem readBody_Header (r : Request) : (readBody r).2.2.Header = r.Header := by
  unfold readBody; cases r.Body <;> rfl

theorem readBody_drained (r : Request) :
    (readBody r).2.2.Body = none ∨
      ∃ f, (readBody r).2.2.Body = some { pending := [], failing := f } := by
  unfold readBody
  cases h : r.Body with
  | none => exact Or.inl h
  | some rd => exact Or.inr ⟨rd.failing, rfl⟩

theorem persist_success (env : Env) (fs : FS) (dirLog : Str) (r : Request) (body : Str)
    (hok : (persist env (corsHeaders ResponseWriter.new) fs dirLog r body).w.status
      = some 200) :
    ∃ logData, env.marshalIndent (buildRecord env r body) = some logData ∧
      (persist env (corsHeaders ResponseWriter.new) fs dirLog r body).written
        = (Join dirLog "log.txt".toList, logData) ::
            (if body = [] then [] else [(Join dirLog "data.txt".toList, body)]) ∧
      (persist env (corsHeaders ResponseWriter.new) fs dirLog r body).fs
        = (if body = [] then GoMap.set fs (Join dirLog "log.txt".toList) (Node.file logData)
           else GoMap.set (GoMap.set fs (Join dirLog "log.txt".toList) (Node.file logData))
             (Join dirLog "data.txt".toList) (Node.file body)) := by
  have hs := corsHeaders_status
  cases hmar : env.marshalIndent (buildRecord env r body) with
  | none =>
    simp only [persist, hmar] at hok
    rw [httpError_status _ _ _ hs] at hok
    simp at hok
  | some logData =>
    by_cases hlog : env.writeFileFails (Join dirLog "log.txt".toList) logData = true
    · simp only [persist, hmar, WriteFile_fst, hlog, if_true] at hok
      rw [httpError_status _ _ _ hs] at hok
      simp at hok
    · have hlog2 : env.writeFileFails (Join dirLog "log.txt".toList) logData = false := by
        simpa using hlog
      refine ⟨logData, rfl, ?_⟩
      by_cases hbody : body = []
      · have hlen : ¬ body.length > 0 := by simp [hbody]
        simp only [persist, hmar, WriteFile_fst, hlog2, if_false, hlen, Bool.false_eq_true,
          WriteFile_snd _ _ _ _ hlog2]
        simp [hbody]
      · have hlen : body.length > 0 := (length_pos_iff_ne_nil body).2 hbody
        by_cases hdata : env.writeFileFails (Join dirLog "data.txt".toList) body = true
        · simp only [persist, hmar, WriteFile_fst, hlog2, if_false, hlen, if_true, hdata,
            Bool.false_eq_true] at hok
          rw [httpError_status _ _ _ hs] at hok
          simp at hok
        · have hdata2 : env.writeFileFails (Join dirLog "data.txt".toList) body = false := by
            simpa using hdata
          simp only [persist, hmar, WriteFile_fst, hlog2, if_false, hlen, if_true, hdata2,
            Bool.false_eq_true, WriteFile_snd _ _ _ _ hlog2, WriteFile_snd _ _ _ _ hdata2]
          simp [hbody]

theorem handler_success (env : Env) (fuel : Nat) (fs : FS) (r : Request) (res : Result)
    (hm : r.Method ≠ "OPTIONS".toList) (h : handler env fuel fs r = some res)
    (hok : res.w.status = some 200) :
    ∃ dirLog fs1 logData, createLogDir env fuel fs = some (dirLog, false, fs1) ∧
      (readBody r).2.1 = false ∧
      env.marshalIndent (buildRecord env (readBody r).2.2 (readBody r).1) = some logData ∧
      res.written = (Join dirLog "log.txt".toList, logData) ::
          (if (readBody r).1 = [] then [] else [(Join dirLog "data.txt".toList, (readBody r).1)]) ∧
      res.fs = (if (readBody r).1 = [] then
            GoMap.set fs1 (Join dirLog "log.txt".toList) (Node.file logData)
          else GoMap.set (GoMap.set fs1 (Join dirLog "log.txt".toList) (Node.file logData))
            (Join dirLog "data.txt".toList) (Node.file (readBody r).1)) := by
  have hs := corsHeaders_status
  cases hc : createLogDir env fuel fs with
  | none =>
    rw [show handler env fuel fs r = none from by simp only [handler, hm, if_false, hc]] at h
    cases h
  | some x =>
    obtain ⟨dirLog, err, fs1⟩ := x
    rw [handler_of_createLogDir env fuel fs r dirLog err fs1 hm hc, Option.some.injEq] at h
    subst h
    cases err with
    | true =>
      simp only [if_true] at hok
      rw [httpError_status _ _ _ hs] at hok
      simp at hok
    | false =>
      simp only [if_false, Bool.false_eq_true] at hok ⊢
      by_cases hrd : (readBody r).2.1 = true
      · simp only [hrd, if_true] at hok
        rw [httpError_status _ _ _ hs] at hok
        simp at hok
      · have hrd2 : (readBody r).2.1 = false := by simpa using hrd
        simp only [hrd2, if_false, Bool.false_eq_true] at hok ⊢
        obtain ⟨logData, h1, h2, h3⟩ := persist_success env fs1 dirLog _ _ hok
        exact ⟨dirLog, fs1, logData, rfl, trivial, h1, h2, h3⟩

theorem log_ne_data (dirLog : Str) :
    Join dirLog "log.txt".toList ≠ Join dirLog "data.txt".toList := by
  intro h
  have h1 := lastSegment_Join dirLog "log.txt".toList
    ⟨by decide, by decide, by decide, by decide⟩
  have h2 := lastSegment_Join dirLog "data.txt".toList
    ⟨by decide, by decide, by decide, by decide⟩
  rw [h, h2] at h1
  revert h1
  decide

/-- C5: when the handler answers a request whose method is not `OPTIONS` with
status 200, a file `data.txt` is written in the directory returned by
`createLogDir` if and only if the body read from the request is not empty; what
is written to it is that body, and the file system afterwards holds the body
under that path. -/
theorem data_file_iff_body (env : Env) (fuel : Nat) (fs : FS) (r : Request) (res : Result)
    (hm : r.Method ≠ "OPTIONS".toList) (h : handler env fuel fs r = some res)
    (hok : res.w.status = some 200) :
    ∃ dirLog fs1, createLogDir env fuel fs = some (dirLog, false, fs1) ∧
      ((∃ c, (Join dirLog "data.txt".toList, c) ∈ res.written) ↔ (readBody r).1 ≠ []) ∧
      (∀ c, (Join dirLog "data.txt".toList, c) ∈ res.written → c = (readBody r).1) ∧
      ((readBody r).1 ≠ [] →
        GoMap.get? res.fs (Join dirLog "data.txt".toList) = some (Node.file (readBody r).1)) := by
  obtain ⟨dirLog, fs1, logData, hc, _, _, hw, hfs⟩ := handler_success env fuel fs r res hm h hok
  have hne := log_ne_data dirLog
  have hmem : ∀ c, (Join dirLog "data.txt".toList, c) ∈ res.written ↔
      ((readBody r).1 ≠ [] ∧ c = (readBody r).1) := by
    intro c
    rw [hw]
    by_cases hb : (readBody r).1 = []
    · simp only [hb, if_true, List.mem_singleton, Prod.mk.injEq]
      constructor
      · rintro ⟨h1, _⟩; exact absurd h1.symm hne
      · rintro ⟨h1, _⟩; exact absurd rfl h1
    · simp only [hb, if_false, List.mem_cons, Prod.mk.injEq, List.mem_singleton,
        List.not_mem_nil, or_false]
      constructor
      · rintro (⟨h1, _⟩ | ⟨_, h2⟩)
        · exact absurd h1.symm hne
        · exact ⟨hb, h2⟩
      · rintro ⟨_, h2⟩; exact Or.inr ⟨trivial, h2⟩
  refine ⟨dirLog, fs1, hc, ?_, ?_, ?_⟩
  · constructor
    · rintro ⟨c, hc2⟩; exact ((hmem c).1 hc2).1
    · intro hb; exact ⟨_, (hmem _).2 ⟨hb, rfl⟩⟩
  · intro c hc2
    exact ((hmem c).1 hc2).2
  · intro hb
    rw [hfs]
    simp only [hb, if_false]
    exact GoMap.get?_set_self _ _ _

theorem data_file_iff_body_witness :
    postFormRequest.Method ≠ "OPTIONS".toList ∧
    handler Env.plain 1 [] postFormRequest = some postFormResult ∧
    postFormResult.w.status = some 200 ∧
    ∃ dirLog fs1, createLogDir Env.plain 1 [] = some (dirLog, false, fs1) ∧
      ((∃ c, (Join dirLog "data.txt".toList, c) ∈ postFormResult.written)
        ↔ (readBody postFormRequest).1 ≠ []) ∧
      (∀ c, (Join dirLog "data.txt".toList, c) ∈ postFormResult.written
        → c = (readBody postFormRequest).1) ∧
      ((readBody postFormRequest).1 ≠ [] →
        GoMap.get? postFormResult.fs (Join dirLog "data.txt".toList)
          = some (Node.file (readBody postFormRequest).1)) :=
  ⟨by decide, by decide, by decide,
    data_file_iff_body Env.plain 1 [] postFormRequest postFormResult
      (by decide) (by decide) (by decide)⟩

/-! ## The persisted record -/

/-- C10 (amended): when the handler answers a request whose method is not
`OPTIONS` with status 200, `log.txt` in the allocated directory holds the
serialisation of a record whose `Method` is the request's method unmodified and
whose `URL` is the request's `RequestURI` when that is not empty (every request
read from the wire) and the value of `URL.String()` when `RequestURI` is empty
(a request built without a request line). -/
theorem log_record_method_url (env : Env) (fuel : Nat) (fs : FS) (r : Request) (res : Result)
    (hm : r.Method ≠ "OPTIONS".toList) (h : handler env fuel fs r = some res)
    (hok : res.w.status = some 200) :
    ∃ dirLog logData, (Join dirLog "log.txt".toList, logData) ∈ res.written ∧
      GoMap.get? res.fs (Join dirLog "log.txt".toList) = some (Node.file logData) ∧
      env.marshalIndent (buildRecord env (readBody r).2.2 (readBody r).1) = some logData ∧
      (buildRecord env (readBody r).2.2 (readBody r).1).Method = r.Method ∧
      (r.RequestURI ≠ [] →
        (buildRecord env (readBody r).2.2 (readBody r).1).URL = r.RequestURI) ∧
      (r.RequestURI = [] →
        (buildRecord env (readBody r).2.2 (readBody r).1).URL = r.URL.String) := by
  obtain ⟨dirLog, fs1, logData, _, _, hmar, hw, hfs⟩ := handler_success env fuel fs r res hm h hok
  refine ⟨dirLog, logData, by rw [hw]; exact List.mem_cons_self _ _, ?_, hmar,
    readBody_Method r, ?_, ?_⟩
  · rw [hfs]
    by_cases hb : (readBody r).1 = []
    · simp only [hb, if_true]
      exact GoMap.get?_set_self _ _ _
    · simp only [hb, if_false]
      rw [GoMap.get?_set_other _ _ _ _ (log_ne_data dirLog).symm]
      exact GoMap.get?_set_self _ _ _
  · intro hu
    simp only [buildRecord, requestURL, readBody_RequestURI, hu, if_false]
  · intro hu
    simp only [buildRecord, requestURL, readBody_RequestURI, readBody_URL, hu, if_true]

theorem log_record_method_url_witness :
    wireGetRequest.Method ≠ "OPTIONS".toList ∧
    handler Env.plain 1 [] wireGetRequest = some wireGetResult ∧
    wireGetResult.w.status = some 200 ∧
    ∃ dirLog logData, (Join dirLog "log.txt".toList, logData) ∈ wireGetResult.written ∧
      GoMap.get? wireGetResult.fs (Join dirLog "log.txt".toList) = some (Node.file logData) ∧
      Env.plain.marshalIndent
        (buildRecord Env.plain (readBody wireGetRequest).2.2 (readBody wireGetRequest).1)
        = some logData ∧
      (buildRecord Env.plain (readBody wireGetRequest).2.2 (readBody wireGetRequest).1).Method
        = wireGetRequest.Method ∧
      (wireGetRequest.RequestURI ≠ [] →
        (buildRecord Env.plain (readBody wireGetRequest).2.2 (readBody wireGetRequest).1).URL
          = wireGetRequest.RequestURI) ∧
      (wireGetRequest.RequestURI = [] →
        (buildRecord Env.plain (readBody wireGetRequest).2.2 (readBody wireGetRequest).1).URL
          = wireGetRequest.URL.String) :=
  ⟨by decide, by decide, by decide,
    log_record_method_url Env.plain 1 [] wireGetRequest wireGetResult (by decide) (by decide)
      (by decide)⟩

/-- C10, counterexample: for the request `http.NewRequest("GET", "/a b", nil)`,
answered with status 200, the record's `URL` is the re-encoded `/a%20b` taken
from `URL.String()`; it differs from the request's (empty) `RequestURI`. -/
theorem record_url_reencoded :
    (handler Env.plain 1 [] newRequestSpace).map (fun res => (res.w.status, res.written))
      = some (some 200, [("logs/20240115-090503-001/log.txt".toList, "GET /a%20b".toList)]) ∧
    (buildRecord Env.plain (readBody newRequestSpace).2.2 (readBody newRequestSpace).1).URL
      = "/a%20b".toList ∧
    (buildRecord Env.plain (readBody newRequestSpace).2.2 (readBody newRequestSpace).1).URL
      ≠ newRequestSpace.RequestURI := by
  refine ⟨by decide, by decide, by decide⟩

/-! ## The form fields of a POST request -/

theorem parsePostForm_drained (env : Env) (r : Request)
    (hb : r.Body = none ∨ ∃ f, r.Body = some { pending := [], failing := f }) :
    (parsePostForm env r).1.getD [] = [] := by
  have hq : (ParseQuery []).1 = [] := by decide
  rcases hb with hb | ⟨f, hb⟩
  · simp only [parsePostForm, hb, Option.getD_none]
  · have hbytes : toBytes [] = [] := rfl
    have hfrom : fromBytes [] = [] := rfl
    simp only [parsePostForm, hb, Reader.ReadLimited, hbytes, List.take_nil, List.length_nil,
      hfrom]
    split_ifs <;> simp [hq]

theorem ParseForm_drained (env : Env) (r : Request)
    (hb : r.Body = none ∨ ∃ f, r.Body = some { pending := [], failing := f }) :
    (ParseForm env r).1 = [] := by
  simp only [ParseForm]
  split_ifs
  · exact parsePostForm_drained env r hb
  · rfl

theorem range_nil (env : Env) : env.range [] = [] :=
  List.perm_nil.1 (env.range_perm [])

theorem range_singleton (env : Env) (e : Str × List Str) : env.range [e] = [e] :=
  List.perm_singleton.1 (env.range_perm [e])

theorem buildRecord_Post_drained (env : Env) (r : Request) (body : Str)
    (hb : r.Body = none ∨ ∃ f, r.Body = some { pending := [], failing := f }) :
    (buildRecord env r body).Post = [] := by
  simp only [buildRecord, ParseForm_drained env r hb, range_nil, List.foldl_nil]
  split
  · split <;> rfl
  · rfl

/-- C1 (the code diverges from the claim): for the request `POST /test` with
`Content-Type: application/x-www-form-urlencoded` and body
`key1=value1&key2=value2`, in every environment in which the handler answers
with status 200, `log.txt` holds the serialisation of a record whose `Post`
mapping is empty: the body was consumed by `io.ReadAll` before `ParseForm` ran. -/
theorem post_form_fields_not_recorded (env : Env) (fuel : Nat) (fs : FS) (res : Result)
    (h : handler env fuel fs postFormRequest = some res) (hok : res.w.status = some 200) :
    ∃ dirLog logData, (Join dirLog "log.txt".toList, logData) ∈ res.written ∧
      env.marshalIndent
        { Method := "POST".toList
          URL := "/test".toList
          Header := [("Content-Type".toList, "application/x-www-form-urlencoded".toList)]
          Get := []
          Post := []
          Data := "key1=value1&key2=value2".toList } = some logData := by
  obtain ⟨dirLog, fs1, logData, _, _, hmar, hw, _⟩ :=
    handler_success env fuel fs postFormRequest res (by decide) h hok
  refine ⟨dirLog, logData, by rw [hw]; exact List.mem_cons_self _ _, ?_⟩
  rw [← hmar]
  have hpost := buildRecord_Post_drained env (readBody postFormRequest).2.2
    (readBody postFormRequest).1 (readBody_drained postFormRequest)
  have hq : URL.Query (readBody postFormRequest).2.2.URL = [] := by decide
  have hh : (readBody postFormRequest).2.2.Header
      = [("Content-Type".toList, ["application/x-www-form-urlencoded".toList])] := by decide
  have hrec : buildRecord env (readBody postFormRequest).2.2 (readBody postFormRequest).1
      = { Method := "POST".toList
          URL := "/test".toList
          Header := [("Content-Type".toList, "application/x-www-form-urlencoded".toList)]
          Get := []
          Post := (buildRecord env (readBody postFormRequest).2.2
            (readBody postFormRequest).1).Post
          Data := "key1=value1&key2=value2".toList } := by
    simp only [buildRecord, RequestLog.mk.injEq, hq, hh, range_nil, range_singleton,
      List.foldl_nil, and_true, true_and]
    decide
  rw [hrec, hpost]

theorem post_form_fields_not_recorded_witness :
    handler Env.plain 1 [] postFormRequest = some postFormResult ∧
    postFormResult.w.status = some 200 ∧
    ∃ dirLog logData, (Join dirLog "log.txt".toList, logData) ∈ postFormResult.written ∧
      Env.plain.marshalIndent
        { Method := "POST".toList
          URL := "/test".toList
          Header := [("Content-Type".toList, "application/x-www-form-urlencoded".toList)]
          Get := []
          Post := []
          Data := "key1=value1&key2=value2".toList } = some logData :=
  ⟨by decide, by decide,
    post_form_fields_not_recorded Env.plain 1 [] postFormResult (by decide) (by decide)⟩

/-! ## The listening port -/

/-- C7 (the code diverges from the claim): with the flag `-port 8080` given and
the variable `PORT` set to `9090`, the server listens on `9090`, the value of
the environment variable, not on the flag's value. -/
theorem listenPort_flag_8080_overridden :
    listenPort (some "8080".toList) (some "9090".toList) = "9090".toList := by
  decide

/-! ## The three mappings of the record -/

theorem GoMap.get?_set {α : Type} (m : GoMap α) (k k2 : Str) (v : α) :
    GoMap.get? (GoMap.set m k v) k2 = if k = k2 then some v else GoMap.get? m k2 := by
  by_cases h : k = k2
  · subst h; simp [GoMap.get?_set_self]
  · simp [h, GoMap.get?_set_other _ _ _ _ h]

theorem headerStep_get? (m : GoMap Str) (e : Str × List Str) (k : Str) :
    GoMap.get? (headerStep m e) k =
      if e.2 ≠ [] ∧ cleanName e.1 = k ∧ k ≠ [] then e.2.head?.map cleanValue
      else GoMap.get? m k := by
  obtain ⟨name, vs⟩ := e
  cases vs with
  | nil => simp [headerStep]
  | cons v rest =>
    simp only [headerStep]
    by_cases hn : cleanName name = []
    · have : ¬ (cleanName name = k ∧ k ≠ []) := fun ⟨h1, h2⟩ => h2 (h1 ▸ hn)
      simp [hn, this]
    · by_cases hk : cleanName name = k
      · subst hk; simp [hn, GoMap.get?_set_self]
      · simp [hn, hk, GoMap.get?_set_other _ _ _ _ hk]

theorem paramStep_get? (m : GoMap Str) (e : Str × List Str) (k : Str) :
    GoMap.get? (paramStep m e) k =
      if e.2 ≠ [] ∧ TrimSpace e.1 = k ∧ k ≠ [] then e.2.head?.map TrimSpace
      else GoMap.get? m k := by
  obtain ⟨name, vs⟩ := e
  cases vs with
  | nil => simp [paramStep]
  | cons v rest =>
    simp only [paramStep]
    by_cases hn : TrimSpace name = []
    · have : ¬ (TrimSpace name = k ∧ k ≠ []) := fun ⟨h1, h2⟩ => h2 (h1 ▸ hn)
      simp [hn, this]
    · by_cases hk : TrimSpace name = k
      · subst hk; simp [hn, GoMap.get?_set_self]
      · simp [hn, hk, GoMap.get?_set_other _ _ _ _ hk]

theorem foldl_get?_lastVisited (ck cv : Str → Str)
    (step : GoMap Str → Str × List Str → GoMap Str)
    (hstep : ∀ m e k, GoMap.get? (step m e) k =
      if e.2 ≠ [] ∧ ck e.1 = k ∧ k ≠ [] then e.2.head?.map cv else GoMap.get? m k)
    (es : List (Str × List Str)) (k : Str) :
    GoMap.get? (es.foldl step []) k = lastVisited ck cv es k := by
  induction es using List.reverseRecOn with
  | nil => simp [lastVisited, GoMap.get?]
  | append_singleton es e ih =>
    rw [List.foldl_append, List.foldl_cons, List.foldl_nil, hstep]
    simp only [lastVisited, List.reverse_append, List.reverse_cons, List.reverse_nil,
      List.nil_append, List.singleton_append, List.find?_cons]
    by_cases hp : e.2 ≠ [] ∧ ck e.1 = k ∧ k ≠ []
    · simp only [hp, and_self, if_true, decide_True, ne_eq, not_false_eq_true]
    · rw [if_neg hp, ih]
      simp only [lastVisited]
      have : decide (e.2 ≠ [] ∧ ck e.1 = k ∧ k ≠ []) = false := by simpa using hp
      rw [this]

theorem lastVisited_some (ck cv : Str → Str) (es : List (Str × List Str)) (k v : Str)
    (h : lastVisited ck cv es k = some v) :
    ∃ name v0 rest, (name, v0 :: rest) ∈ es ∧ k = ck name ∧ v = cv v0 ∧ k ≠ [] := by
  simp only [lastVisited] at h
  cases hf : es.reverse.find? (fun e => decide (e.2 ≠ [] ∧ ck e.1 = k ∧ k ≠ [])) with
  | none => rw [hf] at h; cases h
  | some e =>
    rw [hf] at h
    have hmem : e ∈ es := List.mem_reverse.1 (List.mem_of_find?_eq_some hf)
    have hp := List.find?_some hf
    simp only [decide_eq_true_eq] at hp
    obtain ⟨name, vs⟩ := e
    cases vs with
    | nil => exact absurd rfl hp.1
    | cons v0 rest =>
      simp only [List.head?_cons, Option.map_some', Option.some.injEq] at h
      exact ⟨name, v0, rest, hmem, hp.2.1.symm, h.symm, hp.2.2⟩

theorem lastVisited_ne_none (ck cv : Str → Str) (es : List (Str × List Str))
    (name v0 : Str) (rest : List Str) (hmem : (name, v0 :: rest) ∈ es) (hne : ck name ≠ []) :
    lastVisited ck cv es (ck name) ≠ none := by
  simp only [lastVisited]
  cases hf : es.reverse.find? (fun e => decide (e.2 ≠ [] ∧ ck e.1 = ck name ∧ ck name ≠ [])) with
  | none =>
    have := List.find?_eq_none.1 hf (name, v0 :: rest) (List.mem_reverse.2 hmem)
    simp [hne] at this
  | some e =>
    have hp := List.find?_some hf
    simp only [decide_eq_true_eq] at hp
    obtain ⟨n2, vs⟩ := e
    cases vs with
    | nil => exact absurd rfl hp.1
    | cons v1 r1 => simp

theorem lastVisited_perm (ck cv : Str → Str) (es es2 : List (Str × List Str)) (k : Str)
    (hperm : es.Perm es2) (hnodup : (es.map (fun e => ck e.1)).Nodup) :
    lastVisited ck cv es k = lastVisited ck cv es2 k := by
  have hinj : ∀ a ∈ es, ∀ b ∈ es, ck a.1 = ck b.1 → a = b :=
    fun a ha b hb hab => List.inj_on_of_nodup_map hnodup ha hb hab
  have key : ∀ l1 l2 : List (Str × List Str), (∀ a, a ∈ l1 ↔ a ∈ es) → (∀ a, a ∈ l2 ↔ a ∈ es) →
      ∀ e, l1.find? (fun e => decide (e.2 ≠ [] ∧ ck e.1 = k ∧ k ≠ [])) = some e →
        l2.find? (fun e => decide (e.2 ≠ [] ∧ ck e.1 = k ∧ k ≠ [])) = some e := by
    intro l1 l2 h1 h2 e hf
    have hmem : e ∈ es := (h1 e).1 (List.mem_of_find?_eq_some hf)
    have hp := List.find?_some hf
    cases hf2 : l2.find? (fun e => decide (e.2 ≠ [] ∧ ck e.1 = k ∧ k ≠ [])) with
    | none => exact absurd hp (by simpa using List.find?_eq_none.1 hf2 e ((h2 e).2 hmem))
    | some e2 =>
      have hmem2 : e2 ∈ es := (h2 e2).1 (List.mem_of_find?_eq_some hf2)
      have hp2 := List.find?_some hf2
      simp only [decide_eq_true_eq] at hp hp2
      rw [hinj e2 hmem2 e hmem (hp2.2.1.trans hp.2.1.symm)]
  have m1 : ∀ a, a ∈ es.reverse ↔ a ∈ es := fun a => List.mem_reverse
  have m2 : ∀ a, a ∈ es2.reverse ↔ a ∈ es := fun a =>
    List.mem_reverse.trans (hperm.mem_iff).symm
  simp only [lastVisited]
  cases hf : es.reverse.find? (fun e => decide (e.2 ≠ [] ∧ ck e.1 = k ∧ k ≠ [])) with
  | some e => rw [key _ _ m1 m2 e hf]
  | none =>
    cases hf2 : es2.reverse.find? (fun e => decide (e.2 ≠ [] ∧ ck e.1 = k ∧ k ≠ [])) with
    | none => rfl
    | some e2 => rw [key _ _ m2 m1 e2 hf2] at hf; cases hf

/-! ## Sanitised header names and values -/

theorem ReplaceAll_nil_eq_filter (s : Str) (old : Char) :
    ReplaceAll s old [] = s.filter (fun c => decide (c ≠ old)) := by
  induction s with
  | nil => rfl
  | cons c cs ih =>
    by_cases hc : c = old
    · simp [ReplaceAll, hc, ih]
    · simp [ReplaceAll, hc, ih]

theorem TrimSpace_mem (s : Str) (c : Char) (h : c ∈ TrimSpace s) : c ∈ s := by
  simp only [TrimSpace, List.mem_reverse] at h
  have h1 := (List.dropWhile_sublist isSpace).subset h
  exact (List.dropWhile_sublist isSpace).subset (List.mem_reverse.1 h1)

theorem cleanName_eq (name : Str) :
    cleanName name = TrimSpace (name.filter (fun c => decide (c ≠ bs) && decide (c ≠ dq))) := by
  simp only [cleanName, ReplaceAll_nil_eq_filter, List.filter_filter]

theorem cleanName_clean (name : Str) : dq ∉ cleanName name ∧ bs ∉ cleanName name := by
  rw [cleanName_eq]
  constructor
  · intro h
    have := List.of_mem_filter (TrimSpace_mem _ _ h)
    simp at this
  · intro h
    have := List.of_mem_filter (TrimSpace_mem _ _ h)
    simp at this

/-- C2 (amended): every entry of the record's header mapping comes from a
request header that has a value: its key is the header name with every double
quote and every backslash removed and then trimmed, it is not empty and holds
no double quote and no backslash; its value is the header's first value with a
backslash inserted before every double quote (quotes and backslashes are kept)
and then trimmed.  Every header that has a value and whose cleaned name is not
empty has an entry under its cleaned name. -/
theorem header_entries_sanitized (env : Env) (r : Request) (body : Str) :
    (∀ k v, GoMap.get? (buildRecord env r body).Header k = some v →
      (∃ name v0 rest, (name, v0 :: rest) ∈ r.Header ∧
        k = TrimSpace (name.filter (fun c => decide (c ≠ bs) && decide (c ≠ dq))) ∧
        v = TrimSpace (ReplaceAll v0 dq [bs, dq])) ∧
      k ≠ [] ∧ dq ∉ k ∧ bs ∉ k) ∧
    (∀ name v0 rest, (name, v0 :: rest) ∈ r.Header → cleanName name ≠ [] →
      GoMap.get? (buildRecord env r body).Header (cleanName name) ≠ none) := by
  have hget : ∀ k, GoMap.get? (buildRecord env r body).Header k
      = lastVisited cleanName cleanValue (env.range r.Header) k :=
    fun k => foldl_get?_lastVisited cleanName cleanValue headerStep headerStep_get? _ k
  constructor
  · intro k v h
    rw [hget] at h
    obtain ⟨name, v0, rest, hmem, hk, hv, hne⟩ := lastVisited_some _ _ _ _ _ h
    have hmem2 : (name, v0 :: rest) ∈ r.Header := (env.range_perm r.Header).mem_iff.1 hmem
    refine ⟨⟨name, v0, rest, hmem2, by rw [hk, cleanName_eq], hv⟩, hne, ?_, ?_⟩
    · rw [hk]; exact (cleanName_clean name).1
    · rw [hk]; exact (cleanName_clean name).2
  · intro name v0 rest hmem hne
    rw [hget]
    exact lastVisited_ne_none _ _ _ name v0 rest
      ((env.range_perm r.Header).mem_iff.2 hmem) hne

theorem header_entries_sanitized_witness :
    (∀ k v, GoMap.get? (buildRecord Env.plain quotedHeaderRequest []).Header k = some v →
      (∃ name v0 rest, (name, v0 :: rest) ∈ quotedHeaderRequest.Header ∧
        k = TrimSpace (name.filter (fun c => decide (c ≠ bs) && decide (c ≠ dq))) ∧
        v = TrimSpace (ReplaceAll v0 dq [bs, dq])) ∧
      k ≠ [] ∧ dq ∉ k ∧ bs ∉ k) ∧
    (∀ name v0 rest, (name, v0 :: rest) ∈ quotedHeaderRequest.Header → cleanName name ≠ [] →
      GoMap.get? (buildRecord Env.plain quotedHeaderRequest []).Header (cleanName name) ≠ none) :=
  header_entries_sanitized Env.plain quotedHeaderRequest []

/-- C2, counterexample: for the header `X-Test: a"b` the stored value is
`a\"b`; it holds a double quote and a backslash. -/
theorem header_value_keeps_quote :
    (buildRecord Env.plain (readBody quotedHeaderRequest).2.2
        (readBody quotedHeaderRequest).1).Header
      = [("X-Test".toList, ['a', bs, dq, 'b'])] ∧
    dq ∈ ['a', bs, dq, 'b'] ∧ bs ∈ ['a', bs, dq, 'b'] := by
  decide

/-- C6 (amended): in each of the header, get and post mappings of the record
the value under a key is the cleaned first value of the entry visited last
among those that have a value and whose cleaned name is that key (a later entry
overwrites an earlier one); when the cleaned names of the entries of a map are
pairwise distinct, the values do not depend on the order of the visit. -/
theorem record_maps_last_visited (env : Env) (r : Request) (body : Str) :
    (∀ k, GoMap.get? (buildRecord env r body).Header k
      = lastVisited cleanName cleanValue (env.range r.Header) k) ∧
    (∀ k, GoMap.get? (buildRecord env r body).Get k
      = lastVisited TrimSpace TrimSpace (env.range r.URL.Query) k) ∧
    (∀ k, GoMap.get? (buildRecord env r body).Post k
      = if r.Method = "POST".toList ∧ (ParseForm env r).2 = false then
          lastVisited TrimSpace TrimSpace (env.range (ParseForm env r).1) k
        else none) ∧
    (∀ (ck cv : Str → Str) (m : GoMap (List Str)) (k : Str),
      (m.map (fun e => ck e.1)).Nodup →
      lastVisited ck cv (env.range m) k = lastVisited ck cv m k) := by
  refine ⟨?_, ?_, ?_, ?_⟩
  · exact fun k => foldl_get?_lastVisited cleanName cleanValue headerStep headerStep_get? _ k
  · exact fun k => foldl_get?_lastVisited TrimSpace TrimSpace paramStep paramStep_get? _ k
  · intro k
    simp only [buildRecord]
    by_cases hm : r.Method = "POST".toList
    · by_cases he : (ParseForm env r).2 = true
      · simp [hm, he, GoMap.get?]
      · have he2 : (ParseForm env r).2 = false := by simpa using he
        simp only [hm, he2, if_true, and_self, if_false, Bool.false_eq_true]
        exact foldl_get?_lastVisited TrimSpace TrimSpace paramStep paramStep_get? _ k
    · simp only [hm, if_false, false_and, GoMap.get?]
  · intro ck cv m k hnodup
    exact (lastVisited_perm ck cv m (env.range m) k (env.range_perm m).symm hnodup).symm

theorem record_maps_last_visited_witness :
    (∀ k, GoMap.get? (buildRecord Env.flipped collidingQueryRequest []).Header k
      = lastVisited cleanName cleanValue (Env.flipped.range collidingQueryRequest.Header) k) ∧
    (∀ k, GoMap.get? (buildRecord Env.flipped collidingQueryRequest []).Get k
      = lastVisited TrimSpace TrimSpace
          (Env.flipped.range collidingQueryRequest.URL.Query) k) ∧
    (∀ k, GoMap.get? (buildRecord Env.flipped collidingQueryRequest []).Post k
      = if collidingQueryRequest.Method = "POST".toList ∧
            (ParseForm Env.flipped collidingQueryRequest).2 = false then
          lastVisited TrimSpace TrimSpace
            (Env.flipped.range (ParseForm Env.flipped collidingQueryRequest).1) k
        else none) ∧
    (∀ (ck cv : Str → Str) (m : GoMap (List Str)) (k : Str),
      (m.map (fun e => ck e.1)).Nodup →
      lastVisited ck cv (Env.flipped.range m) k = lastVisited ck cv m k) :=
  record_maps_last_visited Env.flipped collidingQueryRequest []

/-- C6, counterexample: for `GET /?+a=1&a=2` the parameters ` a` and `a` are
both stored under the key `a`.  Visited in the order of the query, the mapping
holds `2`: the later entry has overwritten the earlier one.  Visited in the
opposite order it holds `1`: the stored value depends on the order. -/
theorem colliding_keys_order_dependent :
    URL.Query collidingQueryRequest.URL
      = [(" a".toList, ["1".toList]), ("a".toList, ["2".toList])] ∧
    (buildRecord Env.plain (readBody collidingQueryRequest).2.2
        (readBody collidingQueryRequest).1).Get = [("a".toList, "2".toList)] ∧
    (buildRecord Env.flipped (readBody collidingQueryRequest).2.2
        (readBody collidingQueryRequest).1).Get = [("a".toList, "1".toList)] := by
  decide

end Httplog
